import Mathlib

/-!
Verification development for the tsickle annotator (src/src/tsickle.ts).

The file shallowly embeds the two pipelines of the source:
* the `Annotator` (Closure JSDoc annotation + externs generation), and
* the `PostProcessor` (CommonJS `require` to `goog.require` rewriting),
together with the JSDoc comment parser `getJSDocAnnotation`.

External collaborators (the TypeScript checker, the `TypeTranslator`, the
`Rewriter` base class) are modelled as data carried on nodes, as opaque
function parameters, or as explicit state (output buffers, diagnostics),
following the system design: the rewrite engine is "copy source bytes /
emit synthesized text / collect diagnostics".

Machine output is modelled as a list of structured chunks: each `emit`
call of the source corresponds to one or more chunks, and the sites of the
source that interpolate (or hardcode) a type rendering inside a JSDoc
`\x7b...\x7d` group emit a dedicated `typeStr` chunk carrying exactly the
rendered type string.
-/

namespace Tsickle

/-! ## JSDoc data model (interface JSDocTag / JSDocComment) -/

/-- Model of the source's `JSDocTag` interface.  Optional string fields are
`Option String` (JS `undefined` = `none`); boolean flags default to `false`. -/
structure JSDocTag where
  tagName : Option String := none
  parameterName : Option String := none
  type : Option String := none
  optional : Bool := false
  restParam : Bool := false
  destructuring : Bool := false
  text : Option String := none
deriving DecidableEq, Repr

/-- Model of `interface JSDocComment \x7b tags: JSDocTag[]; \x7d`. -/
structure JSDocComment where
  tags : List JSDocTag
deriving DecidableEq, Repr

/-- JS truthiness of an optional string property: `undefined` and the empty
string are falsy. -/
def truthyS (o : Option String) : Bool :=
  match o with
  | some s => !s.data.isEmpty
  | none => false

/-! ## Structural string primitives

The JS string operations of the source are modelled over the character
list of the string, with structurally recursive definitions (so concrete
runs evaluate inside the kernel). -/

/-- `s.startsWith(pre)` / regex `^pre`. -/
def strStartsWith (s pre : String) : Bool :=
  pre.data.isPrefixOf s.data

/-- `s.endsWith(post)` / regex `post$`. -/
def strEndsWith (s post : String) : Bool :=
  post.data.reverse.isPrefixOf s.data.reverse

/-- `s.substr(n)` / dropping the first `n` characters. -/
def strDrop (s : String) (n : Nat) : String :=
  ⟨s.data.drop n⟩

/-- Dropping the last `n` characters. -/
def strDropRight (s : String) (n : Nat) : String :=
  ⟨s.data.take (s.data.length - n)⟩

/-- The length of a string in characters. -/
def strLen (s : String) : Nat :=
  s.data.length

/-- Is the string empty (JS falsy)? -/
def strIsEmpty (s : String) : Bool :=
  s.data.isEmpty

/-- The maximal prefix of characters satisfying `p`. -/
def strTakeWhile (p : Char → Bool) (s : String) : String :=
  ⟨s.data.takeWhile p⟩

/-- Drop the maximal prefix of characters satisfying `p`. -/
def strDropWhile (p : Char → Bool) (s : String) : String :=
  ⟨s.data.dropWhile p⟩

/-- JS `s.trim()`: strip whitespace from both ends. -/
def jsTrim (s : String) : String :=
  ⟨((s.data.dropWhile Char.isWhitespace).reverse.dropWhile Char.isWhitespace).reverse⟩

/-- `s.split('\n')` on the character list. -/
def splitLinesGo : List Char → List (List Char)
  | [] => [[]]
  | c :: rest =>
    if c = '\n' then [] :: splitLinesGo rest
    else
      match splitLinesGo rest with
      | [] => [[c]]
      | l :: ls => (c :: l) :: ls

/-- `s.split('\n')`. -/
def strSplitLines (s : String) : List String :=
  (splitLinesGo s.data).map (fun l => ⟨l⟩)

/-- `parts.join(sep)`. -/
def joinSep (sep : String) : List String → String
  | [] => ""
  | [x] => x
  | x :: xs => x ++ sep ++ joinSep sep xs

/-! ## The regexes of getJSDocAnnotation, modelled character-exactly

`comment.match(/^\/\*\*([\s\S]*?)\*\/$/)`: anchored at both ends without the
`m` flag, so it matches iff the whole string starts with `/**` and ends with
`*/` (the two may not overlap), capturing what is between. -/

/-- The anchored wrapper match of line 88: returns the captured group. -/
def jsdocMatch (comment : String) : Option String :=
  if strStartsWith comment "/**" && strEndsWith comment "*/" && decide (5 ≤ strLen comment) then
    some (strDropRight (strDrop comment 3) 2)
  else none

/-- One candidate match of `/^\s*\* /` at a line start: greedily consume
whitespace (which, as in the regex, may span newlines), then require `"* "`.
`'*'` is not whitespace, so the greedy `\s*` is deterministic. -/
def starPrefixMatch (cs : List Char) : Option (List Char) :=
  match cs.dropWhile Char.isWhitespace with
  | '*' :: ' ' :: r => some r
  | _ => none


/-- `comment.replace(/^\s*\* /gm, '')` of line 92, scanning left to right:
at each position that is the start of the string or follows a newline, a
whitespace-then-`"* "` prefix is removed; all other characters are copied.
Fuel-driven so the definition is structural (the fuel is always sufficient:
every step consumes at least one character). -/
def stripStarsGo : Nat → Bool → List Char → List Char
  | 0, _, cs => cs
  | fuel + 1, atLineStart, cs =>
    if atLineStart then
      match starPrefixMatch cs with
      | some r => stripStarsGo fuel false r
      | none =>
        match cs with
        | [] => []
        | c :: cs' => c :: stripStarsGo fuel (c == '\n') cs'
    else
      match cs with
      | [] => []
      | c :: cs' => c :: stripStarsGo fuel (c == '\n') cs'

/-- The full `replace(/^\s*\* /gm, '')` over a string. -/
def stripStars (s : String) : String :=
  ⟨stripStarsGo (s.data.length + 1) true s.data⟩

/-- `line.match(/^@(\S+) *(.*)/)` of line 96: an `@` at the start of the
line, a maximal nonempty run of non-whitespace as the tag name, then any
number of spaces, then the rest of the line as text. -/
def matchTagLine (line : String) : Option (String × String) :=
  if strStartsWith line "@" then
    let rest := strDrop line 1
    let tagName := strTakeWhile (fun c => !c.isWhitespace) rest
    if strIsEmpty tagName then none
    else
      let text := strDropWhile (fun c => c == ' ') (strDrop rest (strLen tagName))
      some (tagName, text)
  else none

/-- `text.match(/^(\S+) ?(.*)/)` of line 109: a maximal nonempty run of
non-whitespace (the parameter name), at most one following space, then the
rest as text. -/
def matchParamName (text : String) : Option (String × String) :=
  let name := strTakeWhile (fun c => !c.isWhitespace) text
  if strIsEmpty name then none
  else
    let rest := strDrop text (strLen name)
    let rest := if strStartsWith rest " " then strDrop rest 1 else rest
    some (name, rest)

/-- `tags[tags.length - 1].text += ' ' + line.trim()`: JS string coercion
renders an `undefined` text as the string "undefined". -/
def appendToLastText : List JSDocTag → String → List JSDocTag
  | [], _ => []
  | [t], l => [{ t with text := some ((t.text.getD "undefined") ++ " " ++ l) }]
  | t :: ts, l => t :: appendToLastText ts l

/-- The per-line loop of `getJSDocAnnotation` (lines 95-126), accumulating
tags and throwing (modelled as `Except.error`) on the two disallowed forms. -/
def processLines : List String → List JSDocTag → Except String (List JSDocTag)
  | [], tags => .ok tags
  | line :: rest, tags =>
    match matchTagLine line with
    | some (tagName, text) =>
      if tagName == "type" then
        .error "@type annotations are not allowed"
      else if (tagName == "param" || tagName == "return") && strStartsWith text "\x7b" then
        .error "type annotations (using \x7b...\x7d) are not allowed"
      else
        let pnText : Option String × String :=
          if tagName == "param" then
            match matchParamName text with
            | some (p, t) => (some p, t)
            | none => (none, text)
          else (none, text)
        let tag : JSDocTag := { tagName := some tagName }
        let tag := if truthyS pnText.1 then { tag with parameterName := pnText.1 } else tag
        let tag := if !(strIsEmpty pnText.2) then { tag with text := some pnText.2 } else tag
        processLines rest (tags ++ [tag])
    | none =>
      if tags.isEmpty then
        processLines rest [{ text := some (jsTrim line) }]
      else
        processLines rest (appendToLastText tags (jsTrim line))

/-- Model of `getJSDocAnnotation` (lines 84-128): `Except.error` models a
thrown `Error`, `.ok none` models the `null` "not JSDoc" result, and
`.ok (some c)` models a parsed comment. -/
def getJSDocAnnot (comment : String) : Except String (Option JSDocComment) :=
  match jsdocMatch comment with
  | none => .ok none
  | some inner =>
    let lines := strSplitLines (stripStars (jsTrim inner))
    match processLines lines [] with
    | .ok tags => .ok (some ⟨tags⟩)
    | .error e => .error e

/-! Observations on a raw comment, derived from the same parsing pipeline,
used to state which comments the routine must reject. -/

/-- A processed line is disallowed when it is an `@type` tag line or a
`@param`/`@return` tag line whose text opens with a brace. -/
def offendingLine (line : String) : Bool :=
  match matchTagLine line with
  | some (tagName, text) =>
    tagName == "type" || ((tagName == "param" || tagName == "return") && strStartsWith text "\x7b")
  | none => false

/-- The lines the parser iterates over, for a JSDoc-shaped comment. -/
def processedJSDocLines (comment : String) : Option (List String) :=
  (jsdocMatch comment).map (fun inner => strSplitLines (stripStars (jsTrim inner)))

/-- The comment is JSDoc-shaped and contains a hand-written `@type` tag line
or a `@param`/`@return` tag line with an inline brace type. -/
def hasDisallowedTag (comment : String) : Bool :=
  match processedJSDocLines comment with
  | some lines => lines.any offendingLine
  | none => false

/-! ## Annotator: options, checker model, output model

The TypeScript checker and the `TypeTranslator` (file type-translator.ts)
are external collaborators.  A checker-resolved type is an opaque token
`Ty`; the translator is an opaque function from a type and the
`destructuring` flag to a rendered string. -/

/-- Model of `interface Options` (the `logWarning` sink carries no
observable state in this model). -/
structure Options where
  untyped : Bool := false
deriving DecidableEq, Repr

/-- An opaque checker-resolved type. -/
abbrev Ty := Nat

/-- The external `TypeTranslator.translate(type, destructuring)` contract. -/
abbrev Translator := Ty → Bool → String

/-- `closureExternsBlacklist` (lines 29-35). -/
def closureExternsBlacklist : List String :=
  ["exports", "global", "module", "WorkerGlobalScope", "Symbol"]

/-- `unescapeName` (lines 140-144): a leading `___` loses one underscore. -/
def unescapeName (name : String) : String :=
  if strStartsWith name "___" then strDrop name 1 else name

/-- One structured output chunk.  `emit` calls of the source map onto chunk
sequences; every place where the source puts a type rendering inside a JSDoc
brace group emits a dedicated `typeStr` chunk carrying exactly the rendered
type string, and the skeleton emission sites get dedicated constructors so
that theorems can name them. -/
inductive Chunk where
  /-- plain synthesized text (`this.emit(...)`) -/
  | str (s : String)
  /-- a verbatim source-range copy (`this.writeRange` / `this.writeNode`) -/
  | verbatim (s : String)
  /-- a type rendering placed inside a JSDoc brace group -/
  | typeStr (s : String)
  /-- `var N = \x7b\x7d;` — top-level namespace skeleton (line 611) -/
  | skeletonVar (name : String)
  /-- `P = \x7b\x7d;` — nested namespace skeleton (line 609) -/
  | skeletonAssign (path : String)
  /-- `P = \x7b\x7d;` — ambient-enum container skeleton (line 742) -/
  | enumSkeleton (path : String)
  /-- `P = function(params) \x7b\x7d;` (line 733) -/
  | fnSkeletonAssign (path : String) (params : String)
  /-- `function N(params) \x7b\x7d` (line 735) -/
  | fnSkeletonDecl (name : String) (params : String)
  /-- `type N = number;` (line 850) -/
  | enumTypeAlias (name : String)
  /-- `let N: any = \x7b\x7d;` (line 854) -/
  | enumLet (name : String)
  /-- `E.M = v;` with a resolved constant value (lines 859-862) -/
  | enumAssignNum (enumName member : String) (v : Int)
  /-- `E.M = <expr>;` with a non-constant initializer (lines 859, 864) -/
  | enumAssignExpr (enumName member expr : String)
  /-- `E[E.M] = "M";` — the reverse lookup line (line 871) -/
  | enumReverse (enumName member : String)
  /-- `function N() \x7b\x7d` — interface record skeleton (line 464) -/
  | recordFn (name : String)
deriving DecidableEq, Repr

/-- The current output sink: `this.output` either points at the main output
array of the `Rewriter` or at `this.externsOutput`. -/
inductive Sink where
  | main
  | externs
deriving DecidableEq, Repr

/-- Annotator state: the two output buffers, the current sink, the
`emittedNamespaces` set and the collected diagnostics (the `Rewriter`'s
`error` capability). -/
structure AnnState where
  mainOut : List Chunk := []
  externsOut : List Chunk := []
  sink : Sink := .main
  emittedNamespaces : List String := []
  diags : List String := []
deriving DecidableEq, Repr

/-- The empty starting state of one `annotate` run. -/
def initState : AnnState := {}

/-- `this.emit(...)`: append to the buffer the current sink points at. -/
def emitC (c : Chunk) (s : AnnState) : AnnState :=
  match s.sink with
  | .main => { s with mainOut := s.mainOut ++ [c] }
  | .externs => { s with externsOut := s.externsOut ++ [c] }

/-- `this.error(...)` of the `Rewriter`: record a diagnostic. -/
def recordError (msg : String) (s : AnnState) : AnnState :=
  { s with diags := s.diags ++ [msg] }

/-- `emittedNamespaces[name] = true`. -/
def addNamespace (name : String) (s : AnnState) : AnnState :=
  if s.emittedNamespaces.contains name then s
  else { s with emittedNamespaces := s.emittedNamespaces ++ [name] }

/-- `namespace.join('.')`. -/
def dotJoin (l : List String) : String :=
  joinSep "." l

/-- Model of `Annotator.getJSDoc` (lines 566-581).  The node's leading
comments (the output of the external `ts.getLeadingCommentRanges`) are
carried as a list of raw comment strings; only the last one is parsed, and
a parse fault is converted into a recorded diagnostic plus a `null` result. -/
def getJSDoc (comments : List String) (s : AnnState) : Option JSDocComment × AnnState :=
  match comments.getLast? with
  | none => (none, s)
  | some comment =>
    match getJSDocAnnot comment with
    | .ok r => (r, s)
    | .error e => (none, recordError e s)

/-- Model of `Annotator.typeToClosure` (lines 770-782): in untyped mode the
fixed unknown marker `?`, otherwise the external translator's rendering.
(The checker lookup for an absent `type` argument is folded into the `ty`
token the caller supplies.) -/
def typeToClosure (opts : Options) (tr : Translator) (ty : Ty) (destructuring : Bool) : String :=
  if opts.untyped then "?" else tr ty destructuring

/-! ## Node models for the externs sub-algorithm

Checker-derived data (signatures, member types) is carried on the nodes. -/

/-- A function parameter together with what the checker knows about it. -/
structure ParamE where
  /-- `p.name.getText()` — used for externs parameter lists -/
  astNameText : String
  /-- the AST name is an array/object binding pattern -/
  astNameIsPattern : Bool := false
  /-- `paramSym.getName()` from the checker signature -/
  symName : String
  /-- `paramNode.initializer !== undefined` -/
  hasInitializer : Bool := false
  /-- `paramNode.questionToken !== undefined` -/
  hasQuestion : Bool := false
  /-- `paramNode.dotDotDotToken !== undefined` -/
  hasDotDotDot : Bool := false
  /-- the checker type of the parameter -/
  ty : Ty := 0
  /-- `(type as ts.TypeReference).typeArguments[0]` for rest parameters -/
  restElemTy : Ty := 0
deriving DecidableEq, Repr

/-- A function-like declaration with its checker signature. -/
structure FnSigE where
  /-- the node's leading comments (for `getJSDoc`) -/
  comments : List String := []
  params : List ParamE := []
  /-- the checker's return type -/
  retTy : Ty := 0
  /-- `fnDecl.kind === ts.SyntaxKind.Constructor` -/
  kindIsCtor : Bool := false
deriving DecidableEq, Repr

/-- A class/interface member as seen by `writeExternsType`. -/
inductive MemberE where
  | propertySig (name : String) (ty : Ty)
  | methodSig (name : String) (fn : FnSigE)
  | ctorMember (fn : FnSigE)
  | otherMember (kindName : String) (name : Option String)
deriving DecidableEq, Repr

/-- The binding name of a variable declaration. -/
inductive VarBindName where
  | ident (s : String)
  | otherKind
deriving DecidableEq, Repr

/-- A variable declaration with its checker type. -/
structure VarDeclE where
  name : VarBindName
  ty : Ty := 0
deriving DecidableEq, Repr

/-- An enum member: its name text, and its initializer (if any) together
with the checker's `getConstantValue` result for it. -/
structure EnumInitE where
  /-- `getConstantValue(member)`; `none` models `undefined` -/
  constValue : Option Int
  /-- the initializer's source text -/
  text : String
deriving DecidableEq, Repr

/-- One enum member. -/
structure EnumMemberE where
  name : String
  initializer : Option EnumInitE := none
deriving DecidableEq, Repr

/-- An enum declaration. -/
structure EnumDeclE where
  name : String
  isConst : Bool := false
  isExport : Bool := false
  members : List EnumMemberE := []
deriving DecidableEq, Repr

/-- The name of a module declaration (`decl.name.kind`). -/
inductive ModuleName where
  | ident (s : String)
  | strLit (s : String)
  | otherKind
deriving DecidableEq, Repr

mutual
/-- The ambient nodes `visitExterns` dispatches on.  `otherNode` carries
`ts.SyntaxKind[node.kind]` for the TODO emission. -/
inductive ENode where
  | moduleDecl (name : ModuleName) (body : ENode)
  | moduleBlock (stmts : ENodeList)
  | classDecl (name : String) (members : List MemberE)
  | interfaceDecl (name : String) (members : List MemberE)
  | functionDecl (name : String) (fn : FnSigE)
  | variableStatement (decls : List VarDeclE)
  | enumDecl (decl : EnumDeclE)
  | otherNode (kindName : String)
/-- A list of ambient statements (a `ts.ModuleBlock` body). -/
inductive ENodeList where
  | nil
  | cons (hd : ENode) (tl : ENodeList)
end

/-! ## Annotation-block emission -/

/-- `if (tag.tagName) emit('@' + tagName)` (lines 436-438). -/
def emitTagName (tag : JSDocTag) (s : AnnState) : AnnState :=
  if truthyS tag.tagName then emitC (.str ("@" ++ tag.tagName.getD "")) s else s

/-- The brace-wrapped type group (lines 439-449): `\x7b`, the optional
rest-parameter ellipsis, the type rendering, the optional `=` marker,
`\x7d`. -/
def emitTagType (tag : JSDocTag) (s : AnnState) : AnnState :=
  if truthyS tag.type then
    let s := emitC (.str " \x7b") s
    let s := if tag.restParam then emitC (.str "...") s else s
    let s := emitC (.typeStr (tag.type.getD "")) s
    let s := if tag.optional then emitC (.str "=") s else s
    emitC (.str "\x7d") s
  else s

/-- `if (tag.parameterName) emit(' ' + parameterName)` (lines 450-452). -/
def emitTagParamName (tag : JSDocTag) (s : AnnState) : AnnState :=
  if truthyS tag.parameterName then emitC (.str (" " ++ tag.parameterName.getD "")) s else s

/-- `if (tag.text) emit(' ' + text)` (lines 453-455). -/
def emitTagText (tag : JSDocTag) (s : AnnState) : AnnState :=
  if truthyS tag.text then emitC (.str (" " ++ tag.text.getD "")) s else s

/-- One iteration of the tag-rendering loop of `emitFunctionType`
(lines 434-457), with JS truthiness on the optional string fields. -/
def emitTagC (tag : JSDocTag) (s : AnnState) : AnnState :=
  emitC (.str "\n")
    (emitTagText tag (emitTagParamName tag (emitTagType tag
      (emitTagName tag (emitC (.str " * ") s)))))

/-- Model of `Annotator.emitFunctionType` (lines 356-459): merge the
hand-written JSDoc with the checker signature and emit the annotation
block.  Per the source, `extraTags` come first, then the hand-written tags
other than `@param`/`@return`, then one `@param` tag per declared
parameter (rest parameters unwrap one container level), then — unless the
declaration is a constructor — one `@return` tag. -/
def emitFunctionType (cfg : Options) (tr : Translator) (fn : FnSigE)
    (extraTags : List JSDocTag) (s : AnnState) : AnnState :=
  let r := getJSDoc fn.comments s
  let jsDoc := r.1.getD ⟨[]⟩
  let s := r.2
  let copied := jsDoc.tags.filter
    (fun t => !(t.tagName == some "param" || t.tagName == some "return"))
  let paramTags := fn.params.map (fun p =>
    let destructuring := p.astNameIsPattern
    let baseTy := if p.hasDotDotDot then p.restElemTy else p.ty
    let pname := unescapeName p.symName
    { tagName := some "param"
      optional := p.hasInitializer || p.hasQuestion
      parameterName := some pname
      restParam := p.hasDotDotDot
      type := some (typeToClosure cfg tr baseTy destructuring)
      text := (jsDoc.tags.find? (fun t =>
        t.tagName == some "param" && t.parameterName == some pname)).bind (·.text)
      : JSDocTag })
  let retTags : List JSDocTag :=
    if fn.kindIsCtor then []
    else
      [{ tagName := some "return"
         type := some (typeToClosure cfg tr fn.retTy false)
         text := (jsDoc.tags.find? (fun t => t.tagName == some "return")).bind (·.text) }]
  let allTags := extraTags ++ copied ++ paramTags ++ retTags
  let s := emitC (.str "\n/**\n") s
  let s := allTags.foldl (fun s t => emitTagC t s) s
  emitC (.str " */\n") s

/-- Model of `Annotator.emitJSDocType` (lines 752-758). -/
def emitJSDocType (cfg : Options) (tr : Translator) (ty : Ty)
    (additionalDocTag : Option String) (s : AnnState) : AnnState :=
  let s := emitC (.str " /**") s
  let s := match additionalDocTag with
    | some t => emitC (.str (" " ++ t)) s
    | none => s
  let s := emitC (.str " @type \x7b") s
  let s := emitC (.typeStr (typeToClosure cfg tr ty false)) s
  emitC (.str "\x7d */") s

/-! ## Externs writers -/

/-- Model of `Annotator.writeExternsFunction` (lines 730-737). -/
def writeExternsFunction (name : String) (params : String) (ns : List String)
    (s : AnnState) : AnnState :=
  if 0 < ns.length then emitC (.fnSkeletonAssign (dotJoin (ns ++ [name])) params) s
  else emitC (.fnSkeletonDecl name params) s

/-- Model of `Annotator.writeExternsVariable` (lines 714-728); the non-
identifier branch records the `errorUnimplementedKind` diagnostic. -/
def writeExternsVariable (cfg : Options) (tr : Translator) (decl : VarDeclE)
    (ns : List String) (s : AnnState) : AnnState :=
  match decl.name with
  | .ident id =>
    let qualifiedName := dotJoin (ns ++ [id])
    if closureExternsBlacklist.contains qualifiedName then s
    else
      let s := emitJSDocType cfg tr decl.ty none s
      if 0 < ns.length then emitC (.str ("\n" ++ qualifiedName ++ ";\n")) s
      else emitC (.str ("\nvar " ++ qualifiedName ++ ";\n")) s
  | .otherKind => recordError "externs for variable" s

/-- Model of `Annotator.writeExternsEnum` (lines 739-749): the container
skeleton is emitted unconditionally (no `emittedNamespaces` consultation or
update), then one `@const \x7bnumber\x7d` member line per member. -/
def writeExternsEnum (decl : EnumDeclE) (ns : List String) (s : AnnState) : AnnState :=
  let ns' := ns ++ [decl.name]
  let s := emitC (.str "\n/** @const */\n") s
  let s := emitC (.enumSkeleton (dotJoin ns')) s
  decl.members.foldl (fun s m =>
    let path := dotJoin (ns' ++ [m.name])
    let s := emitC (.str "/** @const \x7b") s
    let s := emitC (.typeStr "number") s
    let s := emitC (.str "\x7d */\n") s
    emitC (.str (path ++ ";\n")) s) s

/-- `parameters.map((p) => p.name.getText()).join(', ')` (lines 638, 672,
696). -/
def fnParamsText (fn : FnSigE) : String :=
  joinSep ", " (fn.params.map (fun p => p.astNameText))

/-- The constructor members of a class, in order (`members.filter(...)` of
line 664, projecting to the signature). -/
def ctorSigs (members : List MemberE) : List FnSigE :=
  members.filterMap (fun m =>
    match m with
    | .ctorMember fn => some fn
    | _ => none)

/-- The class/record header of `writeExternsType` (lines 662-678): the
constructor annotation block (with the duplicate-constructor diagnostic)
or the fixed `@constructor`/`@record` comment, together with the parameter
name list for the skeleton. -/
def writeExternsTypeHeader (cfg : Options) (tr : Translator) (isClass : Bool)
    (members : List MemberE) (s : AnnState) : String × AnnState :=
  if isClass then
    match ctorSigs members with
    | [] => ("", emitC (.str "/** @constructor @struct */\n") s)
    | fn :: restCtors =>
      let s := if 0 < restCtors.length then
          recordError "multiple constructor signatures in declarations" s
        else s
      let s := emitFunctionType cfg tr fn
        [{ tagName := some "constructor" }, { tagName := some "struct" }] s
      (fnParamsText fn, s)
  else ("", emitC (.str "/** @record @struct */\n") s)

/-- One member line of `writeExternsType` (lines 682-711). -/
def writeExternsTypeMember (cfg : Options) (tr : Translator) (typeName : String)
    (ns : List String) (s : AnnState) (m : MemberE) : AnnState :=
  match m with
  | .propertySig pname pty =>
    let s := emitJSDocType cfg tr pty none s
    emitC (.str ("\n" ++ typeName ++ ".prototype." ++ pname ++ ";\n")) s
  | .methodSig mname fn =>
    let s := emitFunctionType cfg tr fn [] s
    emitC (.str (typeName ++ ".prototype." ++ mname ++ " = function(" ++
      fnParamsText fn ++ ") \x7b\x7d;\n")) s
  | .ctorMember _ => s
  | .otherMember kindName mname =>
    let path := match mname with
      | some n => ns ++ [n]
      | none => ns
    emitC (.str ("\n/* TODO: " ++ kindName ++ " in " ++ dotJoin path ++ " */\n")) s

/-- Model of `Annotator.writeExternsType` (lines 656-712).  Note the source
adds `typeName` to `emittedNamespaces` without consulting it first (twice,
around the blacklist check), then always emits the skeleton function. -/
def writeExternsType (cfg : Options) (tr : Translator) (isClass : Bool) (name : String)
    (members : List MemberE) (ns : List String) (s : AnnState) : AnnState :=
  let typeName := dotJoin (ns ++ [name])
  let s := addNamespace typeName s
  if closureExternsBlacklist.contains typeName then s
  else
    let s := addNamespace typeName s
    let r := writeExternsTypeHeader cfg tr isClass members s
    let s := writeExternsFunction name r.1 ns r.2
    members.foldl (writeExternsTypeMember cfg tr typeName ns) s

/-- The namespace-container skeleton step of the `ModuleDeclaration` case
(lines 605-614): the `emittedNamespaces` set is consulted before the
skeleton emission and the path is recorded right after. -/
def moduleSkeletonStep (nsName : String) (nsLen : Nat) (s : AnnState) : AnnState :=
  let s :=
    if s.emittedNamespaces.contains nsName then s
    else
      let s := emitC (.str "/** @const */\n") s
      if 1 < nsLen then emitC (.skeletonAssign nsName) s
      else emitC (.skeletonVar nsName) s
  addNamespace nsName s

mutual
/-- Model of `Annotator.visitExterns` (lines 583-654).  On entry the output
sink is saved and redirected to the externs buffer; it is restored to the
saved sink after the dispatch.  A module declaration consults
`emittedNamespaces` before emitting its container skeleton and updates the
set immediately after; string-literal module names are skipped; other name
kinds record a diagnostic (`errorUnimplementedKind`). -/
def visitExterns (cfg : Options) (tr : Translator) (node : ENode) (ns : List String)
    (s : AnnState) : AnnState :=
  let original := s.sink
  let s := { s with sink := Sink.externs }
  let s :=
    match node with
    | .moduleDecl name body =>
      match name with
      | .ident n =>
        let ns' := ns ++ [n]
        let nsName := dotJoin ns'
        visitExterns cfg tr body ns' (moduleSkeletonStep nsName ns'.length s)
      | .strLit _ => s
      | .otherKind => recordError "externs generation of namespace" s
    | .moduleBlock stmts => visitExternsList cfg tr stmts ns s
    | .classDecl name members => writeExternsType cfg tr true name members ns s
    | .interfaceDecl name members => writeExternsType cfg tr false name members ns s
    | .functionDecl name fn =>
      let s := emitFunctionType cfg tr fn [] s
      writeExternsFunction name (fnParamsText fn) ns s
    | .variableStatement decls =>
      decls.foldl (fun s d => writeExternsVariable cfg tr d ns s) s
    | .enumDecl decl => writeExternsEnum decl ns s
    | .otherNode kindName =>
      emitC (.str ("\n/* TODO: " ++ kindName ++ " in " ++ dotJoin ns ++ " */\n")) s
  { s with sink := original }
/-- The statement loop of the `ModuleBlock` case (lines 625-630). -/
def visitExternsList (cfg : Options) (tr : Translator) (l : ENodeList) (ns : List String)
    (s : AnnState) : AnnState :=
  match l with
  | .nil => s
  | .cons hd tl => visitExternsList cfg tr tl ns (visitExterns cfg tr hd ns s)
end

/-- The ambient branch of `Annotator.maybeProcess` (lines 185-191): run the
externs sub-algorithm on the subtree, then copy the subtree's source text
verbatim to the current (restored) sink. -/
def ambientBranch (cfg : Options) (tr : Translator) (node : ENode) (srcText : String)
    (s : AnnState) : AnnState :=
  emitC (.verbatim srcText) (visitExterns cfg tr node [] s)

/-! ## Annotated-file side: interfaces, properties, type aliases, enums -/

/-- The name of a property-like declaration (`prop.name.kind`). -/
inductive PropName where
  | ident (s : String)
  | strLit (s : String)
  | otherKind
deriving DecidableEq, Repr

/-- A property-like declaration with its leading comments and checker type;
`text` is `p.getText()` for the strange-member TODO comment. -/
structure PropE where
  name : PropName
  comments : List String := []
  ty : Ty := 0
  text : String := ""
deriving DecidableEq, Repr

/-- Model of `Annotator.propertyName` (lines 523-536). -/
def propertyName (p : PropE) : Option String :=
  match p.name with
  | .ident s => some s
  | .strLit s => some s
  | .otherKind => none

/-- Model of `Annotator.visitProperty` (lines 538-561).  The `Rewriter`'s
`escapeForComment` (external) is modelled as the text itself.  Note the JS
coercion: a tag with no tag name and an undefined text contributes the
string "undefined" to the existing-annotation block. -/
def visitProperty (cfg : Options) (tr : Translator) (ns : List String) (p : PropE)
    (s : AnnState) : AnnState :=
  match propertyName p with
  | none =>
    emitC (.str ("/* TODO: handle strange member:\n" ++ p.text ++ "\n*/\n")) s
  | some name =>
    let r := getJSDoc p.comments s
    let jsDoc := r.1.getD ⟨[]⟩
    let s := r.2
    let existingAnno := jsDoc.tags.foldl (fun acc t =>
      if truthyS t.tagName then acc ++ "@" ++ t.tagName.getD "" ++ "\n"
      else acc ++ t.text.getD "undefined" ++ "\n") ""
    let s := emitC (.str " /**") s
    let s := if !existingAnno.isEmpty then emitC (.str (" " ++ existingAnno)) s else s
    let s := emitC (.str " @type \x7b") s
    let s := emitC (.typeStr (typeToClosure cfg tr p.ty false)) s
    let s := emitC (.str "\x7d */\n") s
    emitC (.str (dotJoin (ns ++ [name]) ++ ";\n")) s

/-- An interface declaration as seen by `emitInterface`. -/
structure InterfaceE where
  name : String
  hasTypeParams : Bool := false
  hasHeritage : Bool := false
  members : List PropE := []
deriving DecidableEq, Repr

/-- Model of `Annotator.emitInterface` (lines 461-476): nothing at all in
untyped mode; otherwise the record skeleton, TODO comments for type
parameters and heritage clauses, and one property line per member. -/
def emitInterface (cfg : Options) (tr : Translator) (iface : InterfaceE)
    (s : AnnState) : AnnState :=
  if cfg.untyped then s
  else
    let s := emitC (.str "\n/** @record */\n") s
    let s := emitC (.recordFn iface.name) s
    let s := if iface.hasTypeParams then emitC (.str "// TODO: type parameters.\n") s else s
    let s := if iface.hasHeritage then emitC (.str "// TODO: derived interfaces.\n") s else s
    iface.members.foldl (fun s m => visitProperty cfg tr [iface.name, "prototype"] m s) s

/-- The `InterfaceDeclaration` branch of `Annotator.maybeProcess`
(lines 206-210): `emitInterface`, then the interface text verbatim. -/
def interfaceBranch (cfg : Options) (tr : Translator) (iface : InterfaceE)
    (srcText : String) (s : AnnState) : AnnState :=
  emitC (.verbatim srcText) (emitInterface cfg tr iface s)

/-- Model of `Annotator.visitTypeAlias` (lines 784-789). -/
def visitTypeAlias (cfg : Options) (tr : Translator) (name : String) (ty : Ty)
    (s : AnnState) : AnnState :=
  if cfg.untyped then s
  else
    let s := emitC (.str "/** @typedef \x7b") s
    let s := emitC (.typeStr (typeToClosure cfg tr ty false)) s
    let s := emitC (.str "\x7d */\n") s
    emitC (.str ("var " ++ name ++ ": void;\n")) s

/-! ## Enum processing (maybeProcessEnum) -/

/-- The value stored for an enum member: a resolved constant, or the
initializer expression saved for as-is emission. -/
inductive EnumValue where
  | num (v : Int)
  | expr (text : String)
deriving DecidableEq, Repr

/-- Assignment into a JS object used as a string-keyed map: an existing key
keeps its original position (and `Object.keys` returns insertion order;
enum member name texts are identifier or quoted-string texts, never
integer-like keys). -/
def jsObjSet (obj : List (String × α)) (k : String) (v : α) : List (String × α) :=
  if obj.any (fun p => p.1 == k) then
    obj.map (fun p => if p.1 == k then (k, v) else p)
  else obj ++ [(k, v)]

/-- The member-gathering loop of `maybeProcessEnum` (lines 801-832): walk
the members with the implicit value counter `i`, which a resolved constant
resets to the constant plus one, an unvalued member advances by one, and a
non-constant initializer leaves unchanged. -/
def gatherEnumGo : List EnumMemberE → List (String × EnumValue) → Int →
    List (String × EnumValue)
  | [], acc, _ => acc
  | m :: rest, acc, i =>
    match m.initializer with
    | some init =>
      match init.constValue with
      | some c => gatherEnumGo rest (jsObjSet acc m.name (.num c)) (c + 1)
      | none => gatherEnumGo rest (jsObjSet acc m.name (.expr init.text)) i
    | none => gatherEnumGo rest (jsObjSet acc m.name (.num i)) (i + 1)

/-- The gathered `members` object of `maybeProcessEnum`, keys in
`Object.keys` order. -/
def gatherEnumMembers (ms : List EnumMemberE) : List (String × EnumValue) :=
  gatherEnumGo ms [] 0

/-- Model of `Annotator.maybeProcessEnum` (lines 792-875).  Const enums are
left for ordinary processing (`false`).  Otherwise: the `type`/`let`
header, one (optionally `@type \x7bnumber\x7d`-annotated) assignment per
gathered member — a non-constant initializer is emitted by re-visiting the
saved expression, modelled by its text — and one reverse-lookup line per
gathered member. -/
def maybeProcessEnum (cfg : Options) (node : EnumDeclE) (s : AnnState) :
    Bool × AnnState :=
  if node.isConst then (false, s)
  else
    let members := gatherEnumMembers node.members
    let s := emitC (.str "\n") s
    let s := if node.isExport then emitC (.str "export ") s else s
    let s := emitC (.enumTypeAlias node.name) s
    let s := if node.isExport then emitC (.str "export ") s else s
    let s := emitC (.enumLet node.name) s
    let s := members.foldl (fun s m =>
      let s :=
        if !cfg.untyped then
          emitC (.str "\x7d */\n") (emitC (.typeStr "number") (emitC (.str "/** @type \x7b") s))
        else s
      match m.2 with
      | .num v => emitC (.enumAssignNum node.name m.1 v) s
      | .expr t => emitC (.enumAssignExpr node.name m.1 t) s) s
    let s := members.foldl (fun s m => emitC (.enumReverse node.name m.1) s) s
    (true, s)

/-- Modelled from the spec (§4.1 and claim C1): the member values computed
by walking members in declaration order with an implicit counter starting
at `0`, where a compile-time constant takes that constant and resets the
counter to the constant plus one, and a member without an initializer
takes the counter and increments it (a non-constant initializer keeps its
expression and leaves the counter alone).  Written as a plain fold, for
comparison with the source's keyed-object loop. -/
def enumMemberValuesSpec : List EnumMemberE → Int → List (String × EnumValue)
  | [], _ => []
  | m :: rest, i =>
    match m.initializer with
    | some init =>
      match init.constValue with
      | some c => (m.name, .num c) :: enumMemberValuesSpec rest (c + 1)
      | none => (m.name, .expr init.text) :: enumMemberValuesSpec rest i
    | none => (m.name, .num i) :: enumMemberValuesSpec rest (i + 1)

/-! ## PostProcessor: the CommonJS-to-goog.module rewrite pass

The pass operates on compiled JS with no type information; the AST model
carries exactly the shapes the pass inspects.  The recursive `this.visit`
of the external `Rewriter` base (whose default action is a verbatim copy)
is modelled as a verbatim chunk carrying the statement. -/

namespace PostProcessor

/-- A compiled-JS expression, as far as the pass looks at one. -/
inductive JExpr where
  | ident (s : String)
  | strLit (s : String)
  | call (callee : JExpr) (args : List JExpr)
  | otherExpr

/-- The binding name of a `var` declaration. -/
inductive JBindName where
  | ident (s : String)
  | pattern

/-- One declaration of a `var` statement. -/
structure JVarDecl where
  name : JBindName
  initializer : Option JExpr := none

/-- A top-level statement. -/
inductive JStmt where
  | exprStmt (e : JExpr)
  | varStmt (decls : List JVarDecl)
  | otherStmt

/-- An output chunk of the pass; `verbatim` is a statement handed to the
base `Rewriter`'s recursive traversal (default action: verbatim copy). -/
inductive PChunk where
  /-- `goog.module('m');` (line 943) -/
  | googModule (m : String)
  /-- `var v = goog.require('m');` (line 1076) -/
  | googRequire (v m : String)
  /-- `var v = rhs;` — the alias binding of a re-required module (line 1074) -/
  | aliasVar (v rhs : String)
  /-- `__export(goog.require('m'));` (line 1042) -/
  | exportRequire (m : String)
  /-- a statement emitted by the default traversal -/
  | verbatim (st : JStmt)

/-- The per-file state of the pass (lines 906-930). -/
structure PPState where
  namespaceImports : List String := []
  moduleVariables : List (String × String) := []
  strippedStrict : Bool := false
  unusedIndex : Nat := 0
  out : List PChunk := []

/-- The empty starting state of one `process` run. -/
def initPP : PPState := {}

/-- Append one chunk to the output. -/
def pEmit (c : PChunk) (s : PPState) : PPState :=
  { s with out := s.out ++ [c] }

/-- Model of `PostProcessor.isUseStrict` (lines 994-1001): an expression
statement whose expression is the string literal `use strict`, recognized
by exact match. -/
def isUseStrict (st : JStmt) : Bool :=
  match st with
  | .exprStmt e =>
    match e with
    | .strLit t => t == "use strict"
    | _ => false
  | _ => false

/-- Model of `PostProcessor.isRequire` (lines 1086-1097), on the callee and
arguments of a call expression. -/
def isRequire (callee : JExpr) (args : List JExpr) : Option String :=
  match callee with
  | .ident id =>
    if id == "require" then
      match args with
      | [arg] =>
        match arg with
        | .strLit t => some t
        | _ => none
      | _ => none
    else none
  | _ => none

/-- Model of `PostProcessor.isExportRequire` (lines 1103-1113). -/
def isExportRequire (callee : JExpr) (args : List JExpr) : Option String :=
  match callee with
  | .ident id =>
    if id == "__export" then
      match args with
      | [arg] =>
        match arg with
        | .call c cargs => isRequire c cargs
        | _ => none
      | _ => none
    else none
  | _ => none

/-- `this.moduleVariables[modName]` (read; the call sites guard with
`hasOwnProperty`). -/
def jsObjGet (obj : List (String × String)) (k : String) : String :=
  ((obj.find? (fun p => p.1 == k)).map (fun p => p.2)).getD ""

/-- Placeholder-name synthesis for bare requires (lines 1056-1060): a bare
`require();` statement gets a fresh `unused_<i>_` variable. -/
def pickVarName (vno : Option String) (s : PPState) : String × PPState :=
  match vno with
  | some v => (v, s)
  | none => ("unused_" ++ toString s.unusedIndex ++ "_",
             { s with unusedIndex := s.unusedIndex + 1 })

/-- Module-name resolution (lines 1062-1070): the `goog:` sentinel strips
the prefix, bypasses the resolver and records the namespace import;
otherwise the external resolver is consulted. -/
def resolveModName (f : String → String → String) (fileName req varName : String)
    (s : PPState) : String × PPState :=
  if strStartsWith req "goog:" then
    (strDrop req 5, { s with namespaceImports := s.namespaceImports ++ [varName] })
  else (f fileName req, s)

/-- The dedup-or-bind decision (lines 1072-1078): an already-seen module
identifier binds the new variable as an alias of the first-bound variable;
a fresh identifier binds a `goog.require` and records the binding. -/
def bindRequire (varName modName : String) (s : PPState) : PPState :=
  if s.moduleVariables.any (fun p => p.1 == modName) then
    pEmit (.aliasVar varName (jsObjGet s.moduleVariables modName)) s
  else
    let s := pEmit (.googRequire varName modName) s
    { s with moduleVariables := Tsickle.jsObjSet s.moduleVariables modName varName }

/-- The shared tail of `emitRewrittenRequires` (lines 1053-1079): require
recognition, then the three steps above. -/
def rewriteRequireCall (f : String → String → String) (fileName : String)
    (varNameOpt : Option String) (callee : JExpr) (args : List JExpr)
    (s : PPState) : Option PPState :=
  match isRequire callee args with
  | none => none
  | some req =>
    let vr := pickVarName varNameOpt s
    let mr := resolveModName f fileName req vr.1 vr.2
    some (bindRequire vr.1 mr.1 mr.2)

/-- Model of `PostProcessor.emitRewrittenRequires` (lines 1008-1080);
`none` models the `false` "needs ordinary processing" result. -/
def emitRewrittenRequires (f : String → String → String) (fileName : String)
    (node : JStmt) (s : PPState) : Option PPState :=
  match node with
  | .varStmt decls =>
    match decls with
    | [decl] =>
      match decl.name with
      | .ident v =>
        match decl.initializer with
        | some init =>
          match init with
          | .call callee args => rewriteRequireCall f fileName (some v) callee args s
          | _ => none
        | none => none
      | .pattern => none
    | _ => none
  | .exprStmt e =>
    match e with
    | .call callee args =>
      match isExportRequire callee args with
      | some req =>
        let modName := f fileName req
        let s := pEmit (.exportRequire modName) s
        some { s with moduleVariables := Tsickle.jsObjSet s.moduleVariables modName "*" }
      | none => rewriteRequireCall f fileName none callee args s
    | _ => none
  | .otherStmt => none

/-- Model of `PostProcessor.visitTopLevel` (lines 966-991). -/
def visitTopLevel (f : String → String → String) (fileName : String) (node : JStmt)
    (s : PPState) : PPState :=
  match node with
  | .exprStmt _ =>
    if !s.strippedStrict && isUseStrict node then
      { s with strippedStrict := true }
    else
      match emitRewrittenRequires f fileName node s with
      | some s' => s'
      | none => pEmit (.verbatim node) s
  | .varStmt _ =>
    match emitRewrittenRequires f fileName node s with
    | some s' => s'
    | none => pEmit (.verbatim node) s
  | .otherStmt => pEmit (.verbatim node) s

/-- The statement loop of `process` (lines 945-950). -/
def runStmts (f : String → String → String) (fileName : String) (stmts : List JStmt)
    (s : PPState) : PPState :=
  stmts.foldl (fun s st => visitTopLevel f fileName st s) s

/-- Model of `PostProcessor.process` (lines 938-958): emit the
`goog.module` header, visit every top-level statement, and return the
output together with `Object.keys(this.moduleVariables)` — first-occurrence
order, not sorted. -/
def process (f : String → String → String) (fileName : String) (stmts : List JStmt) :
    List PChunk × List String :=
  let s := pEmit (.googModule (f "" fileName)) initPP
  let s := runStmts f fileName stmts s
  (s.out, s.moduleVariables.map (fun p => p.1))

/-- The module identifier a `require("M")` resolves to (lines 1062-1070):
the `goog:` sentinel is stripped and bypasses the resolver, anything else
goes through the resolver. -/
def resolveRequire (f : String → String → String) (fileName : String) (req : String) :
    String :=
  if strStartsWith req "goog:" then strDrop req 5 else f fileName req

end PostProcessor

/-! ## Observations over output chunk lists -/

/-- The type renderings synthesized in a chunk list: the payloads of the
`typeStr` chunks (each one is the string inside a JSDoc brace group). -/
def typeStrsOf (l : List Chunk) : List String :=
  l.filterMap (fun c =>
    match c with
    | .typeStr s => some s
    | _ => none)

/-- Is the chunk a module-namespace empty-container skeleton for path `p`
(the two emission sites of the `ModuleDeclaration` case)? -/
def isModuleSkeleton (p : String) (c : Chunk) : Bool :=
  match c with
  | .skeletonVar q => q == p
  | .skeletonAssign q => q == p
  | _ => false

/-- How many module-namespace skeletons for path `p` a chunk list holds. -/
def moduleSkeletonCount (l : List Chunk) (p : String) : Nat :=
  l.countP (isModuleSkeleton p)

/-- Is the chunk the ambient-enum empty-container skeleton for path `p`? -/
def isEnumSkeleton (p : String) (c : Chunk) : Bool :=
  match c with
  | .enumSkeleton q => q == p
  | _ => false

/-- How many ambient-enum container skeletons for path `p` a chunk list
holds. -/
def enumSkeletonCount (l : List Chunk) (p : String) : Nat :=
  l.countP (isEnumSkeleton p)

/-- The `A, B = 5, C` enum of claim C1. -/
def enumABC : EnumDeclE :=
  { name := "Foo"
    members := [{ name := "A" }, { name := "B", initializer := some ⟨some 5, "5"⟩ },
                { name := "C" }] }

namespace PostProcessor

/-- `var v = require("m");` as a top-level statement. -/
def requireStmt (v m : String) : JStmt :=
  .varStmt [{ name := .ident v, initializer := some (.call (.ident "require") [.strLit m]) }]

/-- `__export(require("m"));` as a top-level statement. -/
def exportRequireStmt (m : String) : JStmt :=
  .exprStmt (.call (.ident "__export") [.call (.ident "require") [.strLit m]])

/-- `use strict` statements among the input statements. -/
def countUseStrictIn (stmts : List JStmt) : Nat :=
  stmts.countP isUseStrict

/-- `use strict` statements still present (as verbatim copies) in the
output chunk list. -/
def countUseStrictOut (out : List PChunk) : Nat :=
  out.countP (fun c =>
    match c with
    | .verbatim st => isUseStrict st
    | _ => false)

end PostProcessor

/-- The skeleton invariant of the externs buffer: each dotted path has at
most one module-namespace skeleton, and a path with a skeleton is recorded
in `emittedNamespaces`. -/
def SkelInv (s : AnnState) : Prop :=
  ∀ p, moduleSkeletonCount s.externsOut p ≤ 1 ∧
    (1 ≤ moduleSkeletonCount s.externsOut p → s.emittedNamespaces.contains p = true)

/-- A legitimate synthesized type rendering: either the fixed `number` of
the externs-enum member annotation, or an output of the type-conversion
routine. -/
def TypeStrOK (cfg : Options) (tr : Translator) (x : String) : Prop :=
  x = "number" ∨ ∃ ty d, x = typeToClosure cfg tr ty d

/-- All type renderings in the chunk list are legitimate. -/
def TypeStrsOK (cfg : Options) (tr : Translator) (l : List Chunk) : Prop :=
  ∀ x ∈ typeStrsOf l, TypeStrOK cfg tr x

/-- The state evolution contract of one externs emission step: the sink and
the main buffer are untouched, the emitted-namespace set only grows, and
the skeleton and type-rendering invariants of the externs buffer are
preserved. -/
def EStepX (cfg : Options) (tr : Translator) (s s' : AnnState) : Prop :=
  s'.sink = s.sink ∧
  (s.sink = .externs → s'.mainOut = s.mainOut) ∧
  (∀ n, s.emittedNamespaces.contains n = true → s'.emittedNamespaces.contains n = true) ∧
  (SkelInv s → SkelInv s') ∧
  (TypeStrsOK cfg tr s.externsOut → TypeStrsOK cfg tr s'.externsOut)

/-- The contract of one full `visitExterns` dispatch: an `EStepX` step that
moreover never touches the main buffer (the sink is redirected to the
externs buffer for the whole dispatch) and, of course, restores the sink. -/
def EStepV (cfg : Options) (tr : Translator) (s s' : AnnState) : Prop :=
  EStepX cfg tr s s' ∧ s'.mainOut = s.mainOut

/-- A tag whose type field, when present, is a legitimate rendering. -/
def TagOK (cfg : Options) (tr : Translator) (t : JSDocTag) : Prop :=
  ∀ x, t.type = some x → TypeStrOK cfg tr x

/-! ## Theorems -/

/-- `jsObjSet` on an absent key appends. -/
theorem jsObjSet_absent {α : Type} (acc : List (String × α)) (k : String) (v : α)
    (h : ∀ p ∈ acc, p.1 ≠ k) : jsObjSet acc k v = acc ++ [(k, v)] := by
  unfold jsObjSet
  have : acc.any (fun p => p.1 == k) = false := by
    simp only [List.any_eq_false]
    intro p hp
    simp [h p hp]
  simp [this]

/-- With pairwise-distinct member names (the TypeScript case: duplicate
enum member names are a compile error), the keyed-object gathering loop of
the source computes exactly the spec's counter fold. -/
theorem gatherEnumGo_eq_spec (ms : List EnumMemberE) :
    ∀ (acc : List (String × EnumValue)) (i : Int),
      (∀ m ∈ ms, ∀ p ∈ acc, p.1 ≠ m.name) →
      (ms.map EnumMemberE.name).Nodup →
      gatherEnumGo ms acc i = acc ++ enumMemberValuesSpec ms i := by
  induction ms with
  | nil =>
    intro acc i _ _
    simp [gatherEnumGo, enumMemberValuesSpec]
  | cons m rest ih =>
    intro acc i hdisj hnodup
    have hm : ∀ p ∈ acc, p.1 ≠ m.name := hdisj m (by simp)
    have hnodup' : (rest.map EnumMemberE.name).Nodup := by
      simpa using hnodup.of_cons
    have hnotin : m.name ∉ rest.map EnumMemberE.name := by
      have := hnodup
      simp only [List.map_cons, List.nodup_cons] at this
      exact this.1
    have hdisj' : ∀ v : EnumValue, ∀ m' ∈ rest, ∀ p ∈ acc ++ [(m.name, v)], p.1 ≠ m'.name := by
      intro v m' hm' p hp
      rcases List.mem_append.1 hp with hin | hlast
      · exact hdisj m' (by simp [hm']) p hin
      · simp at hlast
        subst hlast
        intro heq
        simp at heq
        apply hnotin
        rw [heq]
        exact List.mem_map_of_mem EnumMemberE.name hm'
    cases hinit : m.initializer with
    | none =>
      simp only [gatherEnumGo, hinit, enumMemberValuesSpec]
      rw [jsObjSet_absent acc m.name _ hm, ih _ _ (hdisj' _) hnodup']
      simp
    | some init =>
      cases hc : init.constValue with
      | none =>
        simp only [gatherEnumGo, hinit, hc, enumMemberValuesSpec]
        rw [jsObjSet_absent acc m.name _ hm, ih _ _ (hdisj' _) hnodup']
        simp
      | some c =>
        simp only [gatherEnumGo, hinit, hc, enumMemberValuesSpec]
        rw [jsObjSet_absent acc m.name _ hm, ih _ _ (hdisj' _) hnodup']
        simp

/-- C1: for a non-constant enum the annotation pass emits per-member
assignments whose values follow the implicit counter (a constant resets the
counter to the constant plus one, an unvalued member takes and increments
the counter), and one reverse-lookup line per member; in particular for
`A, B = 5, C` the values are `A = 0`, `B = 5`, `C = 6`, each with exactly
one reverse-lookup line, mapping `0` to "A", `5` to "B" and `6` to "C"
through the member's assigned value. -/
theorem c1_enum_member_values :
    (∀ (ms : List EnumMemberE) (i : Int), (ms.map EnumMemberE.name).Nodup →
      gatherEnumGo ms [] i = enumMemberValuesSpec ms i)
    ∧ gatherEnumMembers enumABC.members =
        [("A", .num 0), ("B", .num 5), ("C", .num 6)]
    ∧ maybeProcessEnum {} enumABC initState =
        (true,
         { initState with
            mainOut :=
              [.str "\n", .enumTypeAlias "Foo", .enumLet "Foo",
               .str "/** @type \x7b", .typeStr "number", .str "\x7d */\n",
               .enumAssignNum "Foo" "A" 0,
               .str "/** @type \x7b", .typeStr "number", .str "\x7d */\n",
               .enumAssignNum "Foo" "B" 5,
               .str "/** @type \x7b", .typeStr "number", .str "\x7d */\n",
               .enumAssignNum "Foo" "C" 6,
               .enumReverse "Foo" "A", .enumReverse "Foo" "B",
               .enumReverse "Foo" "C"] }) := by
  refine ⟨fun ms i h => ?_, by decide, by decide⟩
  simpa using gatherEnumGo_eq_spec ms [] i (by simp) h

/-- Witness for C1's general conjunct at the claim's concrete enum. -/
theorem c1_enum_member_values_witness :
    (enumABC.members.map EnumMemberE.name).Nodup
    ∧ gatherEnumGo enumABC.members [] 0 = enumMemberValuesSpec enumABC.members 0 :=
  ⟨by decide, c1_enum_member_values.1 enumABC.members 0 (by decide)⟩

/-! ## C10: untyped mode leaves interfaces verbatim -/

/-- C10: with `untyped` set, the interface branch synthesizes nothing — no
record skeleton, no per-member prototype lines — and the interface text is
copied verbatim as the only output of the branch. -/
theorem c10_untyped_interface_verbatim :
    ∀ (cfg : Options) (tr : Translator) (iface : InterfaceE) (text : String) (s : AnnState),
      cfg.untyped = true →
      emitInterface cfg tr iface s = s ∧
      interfaceBranch cfg tr iface text s = emitC (.verbatim text) s := by
  intro cfg tr iface text s h
  constructor
  · simp [emitInterface, h]
  · simp [interfaceBranch, emitInterface, h]

/-! ## C4 / C9 / C5: the module-rewrite pass -/

theorem c10_untyped_interface_verbatim_witness :
    ({ untyped := true } : Options).untyped = true ∧
    emitInterface { untyped := true } (fun _ _ => "T")
        ⟨"I", true, true, [{ name := .ident "x" }]⟩ initState = initState ∧
    interfaceBranch { untyped := true } (fun _ _ => "T")
        ⟨"I", true, true, [{ name := .ident "x" }]⟩ "interface I ..." initState =
      emitC (.verbatim "interface I ...") initState :=
  ⟨rfl,
   (c10_untyped_interface_verbatim { untyped := true } (fun _ _ => "T")
      ⟨"I", true, true, [{ name := .ident "x" }]⟩ "interface I ..." initState rfl).1,
   (c10_untyped_interface_verbatim { untyped := true } (fun _ _ => "T")
      ⟨"I", true, true, [{ name := .ident "x" }]⟩ "interface I ..." initState rfl).2⟩

namespace PostProcessor

theorem pickVarName_preserves (vno : Option String) (s : PPState) :
    (pickVarName vno s).2.strippedStrict = s.strippedStrict ∧
    (pickVarName vno s).2.out = s.out ∧
    (pickVarName vno s).2.moduleVariables = s.moduleVariables := by
  cases vno <;> simp [pickVarName]

theorem resolveModName_preserves (f : String → String → String)
    (fileName req varName : String) (s : PPState) :
    (resolveModName f fileName req varName s).2.strippedStrict = s.strippedStrict ∧
    (resolveModName f fileName req varName s).2.out = s.out ∧
    (resolveModName f fileName req varName s).2.moduleVariables = s.moduleVariables := by
  unfold resolveModName
  split <;> simp

theorem bindRequire_preserves (varName modName : String) (s : PPState) :
    (bindRequire varName modName s).strippedStrict = s.strippedStrict ∧
    countUseStrictOut (bindRequire varName modName s).out = countUseStrictOut s.out := by
  unfold bindRequire
  split <;> simp [pEmit, countUseStrictOut, List.countP_append, List.countP_cons]

theorem rewriteRequireCall_preserves {f : String → String → String} {fileName : String}
    {vno : Option String} {callee : JExpr} {args : List JExpr} {s s' : PPState}
    (h : rewriteRequireCall f fileName vno callee args s = some s') :
    s'.strippedStrict = s.strippedStrict ∧
    countUseStrictOut s'.out = countUseStrictOut s.out := by
  unfold rewriteRequireCall at h
  cases hreq : isRequire callee args with
  | none => rw [hreq] at h; exact absurd h (by simp)
  | some req =>
    rw [hreq] at h
    simp only [Option.some.injEq] at h
    subst h
    have h1 := pickVarName_preserves vno s
    have h2 := resolveModName_preserves f fileName req (pickVarName vno s).1
      (pickVarName vno s).2
    have h3 := bindRequire_preserves (pickVarName vno s).1
      (resolveModName f fileName req (pickVarName vno s).1 (pickVarName vno s).2).1
      (resolveModName f fileName req (pickVarName vno s).1 (pickVarName vno s).2).2
    refine ⟨?_, ?_⟩
    · rw [h3.1, h2.1, h1.1]
    · rw [h3.2, h2.2.1, h1.2.1]

theorem emitRewrittenRequires_preserves {f : String → String → String} {fileName : String}
    {node : JStmt} {s s' : PPState}
    (h : emitRewrittenRequires f fileName node s = some s') :
    s'.strippedStrict = s.strippedStrict ∧
    countUseStrictOut s'.out = countUseStrictOut s.out := by
  cases node with
  | varStmt decls =>
    simp only [emitRewrittenRequires] at h
    repeat split at h
    all_goals first
      | exact Option.noConfusion h
      | exact rewriteRequireCall_preserves h
  | exprStmt e =>
    simp only [emitRewrittenRequires] at h
    repeat split at h
    all_goals first
      | exact Option.noConfusion h
      | exact rewriteRequireCall_preserves h
      | (simp only [Option.some.injEq] at h
         subst h
         simp [pEmit, countUseStrictOut, List.countP_append, List.countP_cons])
  | otherStmt =>
    simp only [emitRewrittenRequires] at h
    exact Option.noConfusion h

/-- `isUseStrict` recognizes exactly the `"use strict";` statement. -/
theorem isUseStrict_iff (st : JStmt) :
    isUseStrict st = true ↔ st = .exprStmt (.strLit "use strict") := by
  cases st with
  | exprStmt e =>
    cases e <;> simp [isUseStrict]
  | varStmt decls => simp [isUseStrict]
  | otherStmt => simp [isUseStrict]

theorem visitTopLevel_not_us (f : String → String → String) (fileName : String)
    (st : JStmt) (s : PPState) (hus : isUseStrict st = false) :
    (visitTopLevel f fileName st s).strippedStrict = s.strippedStrict ∧
    countUseStrictOut (visitTopLevel f fileName st s).out = countUseStrictOut s.out := by
  cases st with
  | exprStmt e =>
    have hcond : (!s.strippedStrict && isUseStrict (JStmt.exprStmt e)) = false := by
      simp [hus]
    unfold visitTopLevel
    rw [hcond]
    simp only [Bool.false_eq_true, if_false]
    cases hr : emitRewrittenRequires f fileName (JStmt.exprStmt e) s with
    | some s' => exact emitRewrittenRequires_preserves hr
    | none =>
      simp [pEmit, countUseStrictOut, List.countP_append, List.countP_cons, hus]
  | varStmt decls =>
    unfold visitTopLevel
    cases hr : emitRewrittenRequires f fileName (JStmt.varStmt decls) s with
    | some s' => exact emitRewrittenRequires_preserves hr
    | none =>
      simp [pEmit, countUseStrictOut, List.countP_append, List.countP_cons, hus]
  | otherStmt =>
    simp [visitTopLevel, pEmit, countUseStrictOut, List.countP_append,
      List.countP_cons, hus]

/-- The per-file use-strict accounting: the flag becomes set as soon as one
use-strict statement is seen, and the number of surviving use-strict
statements in the output is the input count, minus one if the flag was not
yet set and at least one occurs. -/
theorem runStmts_strict_count (f : String → String → String) (fileName : String) :
    ∀ (stmts : List JStmt) (s : PPState),
      (runStmts f fileName stmts s).strippedStrict =
        (s.strippedStrict || stmts.any isUseStrict) ∧
      countUseStrictOut (runStmts f fileName stmts s).out =
        countUseStrictOut s.out +
          (if s.strippedStrict then countUseStrictIn stmts
           else countUseStrictIn stmts - 1) := by
  intro stmts
  induction stmts with
  | nil =>
    intro s
    simp [runStmts, countUseStrictIn]
  | cons st rest ih =>
    intro s
    have hrun : runStmts f fileName (st :: rest) s =
        runStmts f fileName rest (visitTopLevel f fileName st s) := by
      simp [runStmts]
    rw [hrun]
    cases hus : isUseStrict st with
    | false =>
      obtain ⟨hf, hc⟩ := visitTopLevel_not_us f fileName st s hus
      obtain ⟨ihf, ihc⟩ := ih (visitTopLevel f fileName st s)
      rw [ihf, ihc, hf, hc]
      constructor
      · simp [List.any_cons, hus]
      · simp [countUseStrictIn, List.countP_cons, hus]
    | true =>
      have hst := (isUseStrict_iff st).1 hus
      subst hst
      cases hflag : s.strippedStrict with
      | false =>
        have hv : visitTopLevel f fileName (JStmt.exprStmt (JExpr.strLit "use strict")) s =
            { s with strippedStrict := true } := by
          unfold visitTopLevel
          simp [isUseStrict, hflag]
        rw [hv]
        obtain ⟨ihf, ihc⟩ := ih { s with strippedStrict := true }
        rw [ihf, ihc]
        constructor
        · simp [hflag, List.any_cons, isUseStrict]
        · simp only [hflag]
          simp [countUseStrictIn, List.countP_cons, isUseStrict]
      | true =>
        have hv : visitTopLevel f fileName (JStmt.exprStmt (JExpr.strLit "use strict")) s =
            pEmit (.verbatim (JStmt.exprStmt (JExpr.strLit "use strict"))) s := by
          unfold visitTopLevel
          simp [isUseStrict, hflag, emitRewrittenRequires, isExportRequire,
            rewriteRequireCall, isRequire]
        rw [hv]
        obtain ⟨ihf, ihc⟩ := ih (pEmit (.verbatim (JStmt.exprStmt (JExpr.strLit "use strict"))) s)
        rw [ihf, ihc]
        constructor
        · simp [pEmit, hflag]
        · simp only [hflag, pEmit]
          simp [countUseStrictOut, List.countP_append, List.countP_cons, isUseStrict,
            countUseStrictIn]
          omega

/-- C5 (amended): the pass strips the first `"use strict"` expression
statement encountered at top level — regardless of its position among the
top-level statements — at most once per file; every later `"use strict"`
occurrence is left in place, and recognition is by exact
string-literal-statement match. -/
theorem c5_use_strict_stripping :
    (∀ st, isUseStrict st = true ↔ st = .exprStmt (.strLit "use strict"))
    ∧ (∀ (f : String → String → String) (fileName : String) (stmts : List JStmt),
        countUseStrictOut (process f fileName stmts).1 =
          countUseStrictIn stmts - (if stmts.any isUseStrict then 1 else 0)) := by
  refine ⟨isUseStrict_iff, fun f fileName stmts => ?_⟩
  have h := runStmts_strict_count f fileName stmts (pEmit (.googModule (f "" fileName)) initPP)
  have h0 : countUseStrictOut (pEmit (.googModule (f "" fileName)) initPP).out = 0 := by
    simp [pEmit, initPP, countUseStrictOut]
  have hflag : (pEmit (.googModule (f "" fileName)) initPP).strippedStrict = false := by
    simp [pEmit, initPP]
  have hout : (process f fileName stmts).1 =
      (runStmts f fileName stmts (pEmit (.googModule (f "" fileName)) initPP)).out := rfl
  rw [hout, h.2, h0, hflag]
  simp only [Bool.false_eq_true, if_false, Nat.zero_add]
  cases hany : stmts.any isUseStrict with
  | true => simp
  | false =>
    have : countUseStrictIn stmts = 0 := by
      unfold countUseStrictIn
      rw [List.countP_eq_zero]
      intro st hst
      have := List.any_eq_false.1 hany st hst
      simp [this]
    simp [this]

/-- C5 counterexample: in the file `x; "use strict";` the `"use strict"`
statement is the second top-level statement, yet the pass strips it — the
output holds no `"use strict"` statement — contradicting the claim that a
`"use strict"` at a later top-level position is left in place. -/
theorem c5_counterexample :
    isUseStrict (JStmt.exprStmt (JExpr.strLit "use strict")) = true
    ∧ (process (fun _ s => s) "file"
        [JStmt.otherStmt, JStmt.exprStmt (JExpr.strLit "use strict")]).1 =
      [.googModule "file", .verbatim JStmt.otherStmt] :=
  ⟨rfl, rfl⟩

/-- C4: two `var A = require("M")` / `var B = require("M")` statements for
the same module: the first becomes the `goog.require` binding of `A`, the
second binds `B` as an alias of `A`, and `referencedModules` holds the
resolved identifier of `M` exactly once; with several modules the list is
in first-occurrence order. -/
theorem c4_require_dedup :
    (∀ (f : String → String → String) (fileName A B M : String),
      process f fileName [requireStmt A M, requireStmt B M] =
        ([.googModule (f "" fileName),
          .googRequire A (resolveRequire f fileName M),
          .aliasVar B A],
         [resolveRequire f fileName M]))
    ∧ process (fun _ s => s) "file"
        [requireStmt "A" "M1", requireStmt "B" "M1", requireStmt "C" "M2"] =
        ([.googModule "file", .googRequire "A" "M1", .aliasVar "B" "A",
          .googRequire "C" "M2"],
         ["M1", "M2"]) := by
  constructor
  · intro f fileName A B M
    by_cases hg : strStartsWith M "goog:" <;>
      simp [process, runStmts, visitTopLevel, emitRewrittenRequires, requireStmt,
        rewriteRequireCall, isRequire, isExportRequire, isUseStrict, pickVarName,
        resolveModName, bindRequire, resolveRequire, pEmit, initPP, jsObjGet,
        Tsickle.jsObjSet, hg]
  · rfl

/-- C9: a top-level `__export(require("M"))` records the resolved
identifier of `M` with the placeholder variable `*`, so a later
`var X = require("M")` for the same identifier is rewritten to the alias
assignment `var X = *;` instead of a fresh `goog.require` binding, and the
identifier is referenced exactly once. -/
theorem c9_export_require_star :
    ∀ (f : String → String → String) (fileName X M : String),
      strStartsWith M "goog:" = false →
      (runStmts f fileName [exportRequireStmt M]
          (pEmit (.googModule (f "" fileName)) initPP)).moduleVariables =
        [(f fileName M, "*")] ∧
      process f fileName [exportRequireStmt M, requireStmt X M] =
        ([.googModule (f "" fileName), .exportRequire (f fileName M),
          .aliasVar X "*"],
         [f fileName M]) := by
  intro f fileName X M hg
  constructor <;>
    simp [process, runStmts, visitTopLevel, emitRewrittenRequires, exportRequireStmt,
      requireStmt, rewriteRequireCall, isRequire, isExportRequire, isUseStrict,
      pickVarName, resolveModName, bindRequire, pEmit, initPP, jsObjGet,
      Tsickle.jsObjSet, hg]

/-- Witness for C9 at concrete resolver and names. -/
theorem c9_export_require_star_witness :
    strStartsWith "M" "goog:" = false
    ∧ process (fun _ s => s) "file" [exportRequireStmt "M", requireStmt "X" "M"] =
        ([.googModule "file", .exportRequire "M", .aliasVar "X" "*"], ["M"]) :=
  ⟨rfl, (c9_export_require_star (fun _ s => s) "file" "X" "M" rfl).2⟩

end PostProcessor

/-! ## The externs emission contract (master lemmas for C2, C3, C7) -/

theorem typeStrsOf_append (l1 l2 : List Chunk) :
    typeStrsOf (l1 ++ l2) = typeStrsOf l1 ++ typeStrsOf l2 := by
  simp [typeStrsOf]

theorem moduleSkeletonCount_append (l1 l2 : List Chunk) (p : String) :
    moduleSkeletonCount (l1 ++ l2) p =
      moduleSkeletonCount l1 p + moduleSkeletonCount l2 p := by
  simp [moduleSkeletonCount, List.countP_append]

theorem emitC_sink (c : Chunk) (s : AnnState) : (emitC c s).sink = s.sink := by
  unfold emitC
  cases s.sink <;> rfl

theorem emitC_externs (c : Chunk) (s : AnnState) (h : s.sink = .externs) :
    emitC c s = { s with externsOut := s.externsOut ++ [c] } := by
  unfold emitC
  rw [h]

theorem emitC_main (c : Chunk) (s : AnnState) (h : s.sink = .main) :
    emitC c s = { s with mainOut := s.mainOut ++ [c] } := by
  unfold emitC
  rw [h]

theorem contains_append_one (l : List String) (x y : String)
    (h : l.contains x = true) : (l ++ [y]).contains x = true := by
  have hx : x ∈ l := by simpa using h
  simp [List.mem_append, hx]

theorem contains_append_self (l : List String) (x : String) :
    (l ++ [x]).contains x = true := by
  simp

theorem addNamespace_contains_mono (x : String) (s : AnnState) (n : String)
    (h : s.emittedNamespaces.contains n = true) :
    (addNamespace x s).emittedNamespaces.contains n = true := by
  unfold addNamespace
  split
  · exact h
  · exact contains_append_one _ _ _ h

theorem addNamespace_contains_self (x : String) (s : AnnState) :
    (addNamespace x s).emittedNamespaces.contains x = true := by
  unfold addNamespace
  split
  · next h => exact h
  · exact contains_append_self _ _

theorem addNamespace_frame (x : String) (s : AnnState) :
    (addNamespace x s).sink = s.sink ∧
    (addNamespace x s).mainOut = s.mainOut ∧
    (addNamespace x s).externsOut = s.externsOut := by
  unfold addNamespace
  split <;> exact ⟨rfl, rfl, rfl⟩

theorem estep_refl (cfg : Options) (tr : Translator) (s : AnnState) :
    EStepX cfg tr s s :=
  ⟨rfl, fun _ => rfl, fun _ h => h, id, id⟩

theorem estep_trans {cfg : Options} {tr : Translator} {s1 s2 s3 : AnnState}
    (h1 : EStepX cfg tr s1 s2) (h2 : EStepX cfg tr s2 s3) : EStepX cfg tr s1 s3 := by
  refine ⟨h2.1.trans h1.1, ?_, fun n hn => h2.2.2.1 n (h1.2.2.1 n hn),
    fun hs => h2.2.2.2.1 (h1.2.2.2.1 hs), fun ht => h2.2.2.2.2 (h1.2.2.2.2 ht)⟩
  intro hs
  have h2m := h2.2.1 (h1.1.trans hs)
  have h1m := h1.2.1 hs
  exact h2m.trans h1m

theorem estep_emitC {cfg : Options} {tr : Translator} (c : Chunk) (s : AnnState)
    (h1 : ∀ p, isModuleSkeleton p c = false)
    (h2 : ∀ x, c = .typeStr x → TypeStrOK cfg tr x) :
    EStepX cfg tr s (emitC c s) := by
  cases hs : s.sink with
  | main =>
    rw [emitC_main c s hs]
    exact ⟨rfl, fun hm => Sink.noConfusion (hs ▸ hm), fun _ h => h, id, id⟩
  | externs =>
    rw [emitC_externs c s hs]
    refine ⟨rfl, fun _ => rfl, fun _ h => h, ?_, ?_⟩
    · intro hinv p
      have hp := hinv p
      have hone : moduleSkeletonCount [c] p = 0 := by
        simp [moduleSkeletonCount, List.countP_cons, List.countP_nil, h1 p]
      refine ⟨?_, ?_⟩
      · show moduleSkeletonCount (s.externsOut ++ [c]) p ≤ 1
        rw [moduleSkeletonCount_append, hone]
        omega
      · show 1 ≤ moduleSkeletonCount (s.externsOut ++ [c]) p → _
        rw [moduleSkeletonCount_append, hone]
        intro hcnt
        exact hp.2 (by omega)
    · intro ht x hx
      rw [show ({ s with externsOut := s.externsOut ++ [c] } : AnnState).externsOut =
        s.externsOut ++ [c] from rfl, typeStrsOf_append] at hx
      rcases List.mem_append.1 hx with h | h
      · exact ht x h
      · cases c <;> simp [typeStrsOf] at h
        next payload =>
          subst h
          exact h2 _ rfl

theorem estep_recordError (cfg : Options) (tr : Translator) (msg : String) (s : AnnState) :
    EStepX cfg tr s (recordError msg s) :=
  ⟨rfl, fun _ => rfl, fun _ h => h, id, id⟩

theorem estep_addNamespace (cfg : Options) (tr : Translator) (x : String) (s : AnnState) :
    EStepX cfg tr s (addNamespace x s) := by
  obtain ⟨hsk, hm, he⟩ := addNamespace_frame x s
  refine ⟨hsk, fun _ => hm, fun n hn => addNamespace_contains_mono x s n hn, ?_, ?_⟩
  · intro hinv p
    have hp := hinv p
    constructor
    · rw [he]
      exact hp.1
    · rw [he]
      intro h1
      exact addNamespace_contains_mono x s p (hp.2 h1)
  · intro ht
    rw [show TypeStrsOK cfg tr (addNamespace x s).externsOut =
      TypeStrsOK cfg tr s.externsOut from by rw [he]]
    exact ht

theorem estep_plain {cfg : Options} {tr : Translator} (txt : String) (s : AnnState) :
    EStepX cfg tr s (emitC (.str txt) s) :=
  estep_emitC _ _ (fun _ => rfl) (fun _ hx => Chunk.noConfusion hx)

theorem estep_ite_emit {cfg : Options} {tr : Translator} (b : Bool) (c : Chunk) (s : AnnState)
    (h1 : ∀ p, isModuleSkeleton p c = false)
    (h2 : ∀ x, c = .typeStr x → TypeStrOK cfg tr x) :
    EStepX cfg tr s (if b then emitC c s else s) := by
  cases b
  · simpa using estep_refl cfg tr s
  · simpa using estep_emitC c s h1 h2

theorem estep_foldl {cfg : Options} {tr : Translator} {α : Type}
    {g : AnnState → α → AnnState} :
    ∀ (l : List α) (s : AnnState),
      (∀ (s' : AnnState) (a : α), a ∈ l → EStepX cfg tr s' (g s' a)) →
      EStepX cfg tr s (l.foldl g s) := by
  intro l
  induction l with
  | nil =>
    intro s _
    simpa [List.foldl] using estep_refl cfg tr s
  | cons a rest ih =>
    intro s hstep
    rw [List.foldl_cons]
    exact estep_trans (hstep s a (by simp))
      (ih (g s a) (fun s' b hb => hstep s' b (by simp [hb])))

theorem estep_getJSDoc (cfg : Options) (tr : Translator) (comments : List String)
    (s : AnnState) : EStepX cfg tr s (getJSDoc comments s).2 := by
  unfold getJSDoc
  cases comments.getLast? with
  | none => exact estep_refl cfg tr s
  | some c =>
    dsimp only
    cases getJSDocAnnot c with
    | ok r => exact estep_refl cfg tr s
    | error e => exact estep_recordError cfg tr e s

/-- The composite step of the `ModuleDeclaration` skeleton emission when
the dotted path is not yet recorded: `@const` line, skeleton, set update.
The skeleton count for the new path goes from zero to one and the path
enters the set, so the skeleton invariant is preserved. -/
theorem estep_skeleton_emit {cfg : Options} {tr : Translator} (nsName : String)
    (c : Chunk) {s : AnnState}
    (hnot : s.emittedNamespaces.contains nsName = false)
    (hc : c = .skeletonVar nsName ∨ c = .skeletonAssign nsName) :
    EStepX cfg tr s (addNamespace nsName (emitC c (emitC (.str "/** @const */\n") s))) := by
  have hskelc : ∀ p, isModuleSkeleton p c = (nsName == p) := by
    intro p
    rcases hc with rfl | rfl <;> rfl
  have htypec : ∀ x, c ≠ Chunk.typeStr x := by
    intro x
    rcases hc with rfl | rfl <;> exact fun hx => Chunk.noConfusion hx
  cases hs : s.sink with
  | main =>
    rw [emitC_main _ s hs, emitC_main _ _ (by exact hs)]
    obtain ⟨ha1, ha2, ha3⟩ := addNamespace_frame nsName
      { s with mainOut := s.mainOut ++ [Chunk.str "/** @const */\n"] ++ [c] }
    refine ⟨by rw [ha1], fun hm => Sink.noConfusion (hs ▸ hm), ?_, ?_, ?_⟩
    · intro n hn
      exact addNamespace_contains_mono _ _ n hn
    · intro hinv p
      refine ⟨by rw [ha3]; exact (hinv p).1, ?_⟩
      rw [ha3]
      intro h1
      exact addNamespace_contains_mono _ _ p ((hinv p).2 h1)
    · intro ht
      rw [show TypeStrsOK cfg tr (addNamespace nsName
        { s with mainOut := s.mainOut ++ [Chunk.str "/** @const */\n"] ++ [c] }).externsOut =
        TypeStrsOK cfg tr s.externsOut from by rw [ha3]]
      exact ht
  | externs =>
    rw [emitC_externs _ s hs, emitC_externs _ _ (by exact hs)]
    set s2 : AnnState :=
      { s with externsOut := s.externsOut ++ [Chunk.str "/** @const */\n"] ++ [c] } with hs2
    obtain ⟨ha1, ha2, ha3⟩ := addNamespace_frame nsName s2
    refine ⟨by rw [ha1], fun _ => by rw [ha2], ?_, ?_, ?_⟩
    · intro n hn
      exact addNamespace_contains_mono _ _ n hn
    · intro hinv p
      have hp := hinv p
      have hcnt : moduleSkeletonCount s2.externsOut p =
          moduleSkeletonCount s.externsOut p + (if nsName == p then 1 else 0) := by
        rw [hs2]
        show moduleSkeletonCount (s.externsOut ++ [Chunk.str "/** @const */\n"] ++ [c]) p = _
        rw [moduleSkeletonCount_append, moduleSkeletonCount_append]
        have h1 : moduleSkeletonCount [Chunk.str "/** @const */\n"] p = 0 := by
          simp [moduleSkeletonCount, List.countP_cons, List.countP_nil, isModuleSkeleton]
        have h2 : moduleSkeletonCount [c] p = (if nsName == p then 1 else 0) := by
          simp [moduleSkeletonCount, List.countP_cons, List.countP_nil, hskelc p]
        omega
      by_cases hpe : nsName = p
      · subst hpe
        have hzero : moduleSkeletonCount s.externsOut nsName = 0 := by
          by_contra hnz
          have h1 : 1 ≤ moduleSkeletonCount s.externsOut nsName := by omega
          rw [hp.2 h1] at hnot
          exact Bool.noConfusion hnot
        refine ⟨?_, fun _ => ?_⟩
        · rw [ha3, hcnt, hzero]
          simp
        · exact addNamespace_contains_self _ _
      · have hne : (nsName == p) = false := by
          simp [hpe]
        refine ⟨?_, ?_⟩
        · rw [ha3, hcnt, hne]
          simpa using hp.1
        · rw [ha3, hcnt, hne]
          intro h1
          simp at h1
          exact addNamespace_contains_mono _ _ p (hp.2 h1)
    · intro ht x hx
      rw [ha3] at hx
      rw [hs2] at hx
      rw [show ({ s with externsOut := s.externsOut ++ [Chunk.str "/** @const */\n"] ++ [c] }
        : AnnState).externsOut = s.externsOut ++ [Chunk.str "/** @const */\n"] ++ [c] from rfl,
        typeStrsOf_append, typeStrsOf_append] at hx
      rcases List.mem_append.1 hx with hx1 | hx2
      · rcases List.mem_append.1 hx1 with hx3 | hx4
        · exact ht x hx3
        · simp [typeStrsOf] at hx4
      · rcases hc with rfl | rfl <;> simp [typeStrsOf] at hx2

/-- Appending continuation text to the last tag never sets a type. -/
theorem appendToLastText_type_none :
    ∀ (tags : List JSDocTag) (l : String),
      (∀ t ∈ tags, t.type = none) →
      ∀ t ∈ appendToLastText tags l, t.type = none := by
  intro tags
  induction tags with
  | nil =>
    intro l _ t ht
    simp [appendToLastText] at ht
  | cons t0 rest ih =>
    intro l h t ht
    cases rest with
    | nil =>
      simp only [appendToLastText, List.mem_singleton] at ht
      subst ht
      exact h t0 (by simp)
    | cons t1 rest' =>
      rw [show appendToLastText (t0 :: t1 :: rest') l =
        t0 :: appendToLastText (t1 :: rest') l from rfl] at ht
      rcases List.mem_cons.1 ht with rfl | hmem
      · exact h t (by simp)
      · exact ih l (fun t' ht' => h t' (by simp [ht'])) t hmem

/-- The line loop never sets a tag's type field: hand-written tags carry no
checker type. -/
theorem processLines_type_none :
    ∀ (lines : List String) (tags res : List JSDocTag),
      (∀ t ∈ tags, t.type = none) →
      processLines lines tags = .ok res →
      ∀ t ∈ res, t.type = none := by
  intro lines
  induction lines with
  | nil =>
    intro tags res h hok
    simp only [processLines, Except.ok.injEq] at hok
    subst hok
    exact h
  | cons line rest ih =>
    intro tags res h hok
    cases hml : matchTagLine line with
    | some tt =>
      obtain ⟨tn, text⟩ := tt
      simp only [processLines, hml] at hok
      split at hok
      · exact absurd hok (by simp)
      · split at hok
        · exact absurd hok (by simp)
        · refine ih _ res ?_ hok
          intro t ht
          rcases List.mem_append.1 ht with h1 | h1
          · exact h t h1
          · simp only [List.mem_singleton] at h1
            subst h1
            repeat' split
            all_goals rfl
    | none =>
      simp only [processLines, hml] at hok
      split at hok
      · refine ih _ res ?_ hok
        intro t ht
        simp only [List.mem_singleton] at ht
        subst ht
        rfl
      · exact ih _ res (appendToLastText_type_none tags _ h) hok

/-- Parsed documentation comments never carry a type on any tag. -/
theorem getJSDocAnnot_type_none (comment : String) (d : JSDocComment)
    (h : getJSDocAnnot comment = .ok (some d)) : ∀ t ∈ d.tags, t.type = none := by
  unfold getJSDocAnnot at h
  cases hm : jsdocMatch comment with
  | none =>
    rw [hm] at h
    exact absurd h (by simp)
  | some inner =>
    rw [hm] at h
    dsimp only at h
    cases hp : processLines (strSplitLines (stripStars (jsTrim inner))) [] with
    | error e =>
      rw [hp] at h
      exact absurd h (by simp)
    | ok tags =>
      rw [hp] at h
      simp only [Except.ok.injEq, Option.some.injEq] at h
      subst h
      exact processLines_type_none _ [] tags (by simp) hp

/-- `getJSDoc` only ever returns tags without a type field. -/
theorem getJSDoc_type_none (comments : List String) (s : AnnState) (d : JSDocComment)
    (h : (getJSDoc comments s).1 = some d) : ∀ t ∈ d.tags, t.type = none := by
  unfold getJSDoc at h
  cases hc : comments.getLast? with
  | none =>
    rw [hc] at h
    exact absurd h (by simp)
  | some c =>
    rw [hc] at h
    dsimp only at h
    cases hv : getJSDocAnnot c with
    | ok r =>
      rw [hv] at h
      dsimp only at h
      subst h
      exact getJSDocAnnot_type_none c d hv
    | error e =>
      rw [hv] at h
      exact absurd h (by simp)

/-- One tag line of the annotation block is a faithful emission step when
the tag's type, if any, is a legitimate rendering. -/
theorem estep_emitTagName {cfg : Options} {tr : Translator} (t : JSDocTag) (s : AnnState) :
    EStepX cfg tr s (emitTagName t s) := by
  unfold emitTagName
  exact estep_ite_emit _ _ _ (fun _ => rfl) (fun _ hx => Chunk.noConfusion hx)

theorem estep_emitTagParamName {cfg : Options} {tr : Translator} (t : JSDocTag)
    (s : AnnState) : EStepX cfg tr s (emitTagParamName t s) := by
  unfold emitTagParamName
  exact estep_ite_emit _ _ _ (fun _ => rfl) (fun _ hx => Chunk.noConfusion hx)

theorem estep_emitTagText {cfg : Options} {tr : Translator} (t : JSDocTag)
    (s : AnnState) : EStepX cfg tr s (emitTagText t s) := by
  unfold emitTagText
  exact estep_ite_emit _ _ _ (fun _ => rfl) (fun _ hx => Chunk.noConfusion hx)

theorem estep_emitTagType {cfg : Options} {tr : Translator} (t : JSDocTag) (s : AnnState)
    (ht : TagOK cfg tr t) : EStepX cfg tr s (emitTagType t s) := by
  unfold emitTagType
  cases htype : truthyS t.type with
  | false =>
    simp only [htype, Bool.false_eq_true, if_false]
    exact estep_refl cfg tr s
  | true =>
    simp only [htype, if_true]
    have hok : ∀ x, Chunk.typeStr (t.type.getD "") = Chunk.typeStr x → TypeStrOK cfg tr x := by
      intro x hx
      cases hT : t.type with
      | none =>
        rw [hT] at htype
        exact absurd htype (by simp [truthyS])
      | some y =>
        have hxy : x = y := by
          rw [hT] at hx
          simpa using hx.symm
        subst hxy
        exact ht x hT
    exact estep_trans (estep_plain " \x7b" s)
      (estep_trans (estep_ite_emit t.restParam (Chunk.str "...") (emitC (Chunk.str " \x7b") s)
          (fun _ => rfl) (fun _ hx => Chunk.noConfusion hx))
        (estep_trans (estep_emitC (Chunk.typeStr (t.type.getD "")) _ (fun _ => rfl) hok)
          (estep_trans (estep_ite_emit t.optional (Chunk.str "=") _
              (fun _ => rfl) (fun _ hx => Chunk.noConfusion hx))
            (estep_plain "\x7d" _))))

theorem estep_emitTagC {cfg : Options} {tr : Translator} (t : JSDocTag) (s : AnnState)
    (ht : TagOK cfg tr t) : EStepX cfg tr s (emitTagC t s) := by
  unfold emitTagC
  exact estep_trans (estep_plain " * " s)
    (estep_trans (estep_emitTagName t _)
      (estep_trans (estep_emitTagType t _ ht)
        (estep_trans (estep_emitTagParamName t _)
          (estep_trans (estep_emitTagText t _) (estep_plain "\n" _)))))

/-- The merged annotation block of a callable is a faithful emission step,
provided the extra tags carry no type (as at both call sites). -/
theorem estep_emitFunctionType {cfg : Options} {tr : Translator} (fn : FnSigE)
    (extraTags : List JSDocTag) (hextra : ∀ t ∈ extraTags, t.type = none)
    (s : AnnState) : EStepX cfg tr s (emitFunctionType cfg tr fn extraTags s) := by
  unfold emitFunctionType
  refine estep_trans (estep_getJSDoc cfg tr fn.comments s)
    (estep_trans (estep_plain "\n/**\n" _) (estep_trans (estep_foldl _ _ ?_)
      (estep_plain " */\n" _)))
  intro s' a ha
  refine estep_emitTagC a s' ?_
  intro x hx
  rcases List.mem_append.1 ha with ha1 | haret
  · rcases List.mem_append.1 ha1 with ha2 | hapar
    · rcases List.mem_append.1 ha2 with haextra | hacopy
      · rw [hextra a haextra] at hx
        exact absurd hx (by simp)
      · have htn : a.type = none := by
          have hmem := (List.mem_filter.1 hacopy).1
          cases hv : (getJSDoc fn.comments s).1 with
          | none =>
            rw [hv] at hmem
            simp at hmem
          | some d =>
            rw [hv] at hmem
            exact getJSDoc_type_none fn.comments s d hv a (by simpa using hmem)
        rw [htn] at hx
        exact absurd hx (by simp)
    · rw [List.mem_map] at hapar
      obtain ⟨p, _, hp⟩ := hapar
      rw [← hp] at hx
      simp only [Option.some.injEq] at hx
      exact Or.inr ⟨_, _, hx.symm⟩
  · split at haret
    · exact absurd haret (List.not_mem_nil a)
    · simp only [List.mem_singleton] at haret
      subst haret
      simp only [Option.some.injEq] at hx
      exact Or.inr ⟨_, _, hx.symm⟩

/-- The inline JSDoc type annotation is a faithful emission step. -/
theorem estep_emitJSDocType {cfg : Options} {tr : Translator} (ty : Ty)
    (tag : Option String) (s : AnnState) :
    EStepX cfg tr s (emitJSDocType cfg tr ty tag s) := by
  have hok : ∀ x, Chunk.typeStr (typeToClosure cfg tr ty false) = Chunk.typeStr x →
      TypeStrOK cfg tr x := by
    intro x hx
    simp only [Chunk.typeStr.injEq] at hx
    exact Or.inr ⟨_, _, hx.symm⟩
  unfold emitJSDocType
  cases tag with
  | none =>
    exact estep_trans (estep_plain " /**" s)
      (estep_trans (estep_plain " @type \x7b" _)
        (estep_trans (estep_emitC (Chunk.typeStr (typeToClosure cfg tr ty false)) _
            (fun _ => rfl) hok)
          (estep_plain "\x7d */" _)))
  | some t =>
    exact estep_trans (estep_plain " /**" s)
      (estep_trans (estep_plain (" " ++ t) _)
        (estep_trans (estep_plain " @type \x7b" _)
          (estep_trans (estep_emitC (Chunk.typeStr (typeToClosure cfg tr ty false)) _
              (fun _ => rfl) hok)
            (estep_plain "\x7d */" _))))

theorem estep_writeExternsFunction {cfg : Options} {tr : Translator}
    (name params : String) (ns : List String) (s : AnnState) :
    EStepX cfg tr s (writeExternsFunction name params ns s) := by
  unfold writeExternsFunction
  split
  · exact estep_emitC _ _ (fun _ => rfl) (fun _ hx => Chunk.noConfusion hx)
  · exact estep_emitC _ _ (fun _ => rfl) (fun _ hx => Chunk.noConfusion hx)

theorem estep_writeExternsVariable {cfg : Options} {tr : Translator} (decl : VarDeclE)
    (ns : List String) (s : AnnState) :
    EStepX cfg tr s (writeExternsVariable cfg tr decl ns s) := by
  obtain ⟨dname, dty⟩ := decl
  cases dname with
  | ident id =>
    unfold writeExternsVariable
    dsimp only
    split
    · exact estep_refl cfg tr s
    · split
      · exact estep_trans (estep_emitJSDocType dty none s) (estep_plain _ _)
      · exact estep_trans (estep_emitJSDocType dty none s) (estep_plain _ _)
  | otherKind =>
    unfold writeExternsVariable
    exact estep_recordError cfg tr _ s

theorem estep_writeExternsEnum {cfg : Options} {tr : Translator} (decl : EnumDeclE)
    (ns : List String) (s : AnnState) :
    EStepX cfg tr s (writeExternsEnum decl ns s) := by
  unfold writeExternsEnum
  refine estep_trans (estep_plain "\n/** @const */\n" s)
    (estep_trans (estep_emitC (Chunk.enumSkeleton (dotJoin (ns ++ [decl.name]))) _
        (fun _ => rfl) (fun _ hx => Chunk.noConfusion hx))
      (estep_foldl _ _ ?_))
  intro s' m _
  exact estep_trans (estep_plain "/** @const \x7b" s')
    (estep_trans (estep_emitC (Chunk.typeStr "number") _ (fun _ => rfl)
        (fun x hx => by
          simp only [Chunk.typeStr.injEq] at hx
          exact Or.inl hx.symm))
      (estep_trans (estep_plain "\x7d */\n" _) (estep_plain _ _)))

theorem estep_writeExternsTypeHeader {cfg : Options} {tr : Translator} (isClass : Bool)
    (members : List MemberE) (s : AnnState) :
    EStepX cfg tr s (writeExternsTypeHeader cfg tr isClass members s).2 := by
  unfold writeExternsTypeHeader
  split
  · split
    · exact estep_plain _ _
    · refine estep_trans ?_ (estep_emitFunctionType _ _ ?_ _)
      · split
        · exact estep_recordError cfg tr _ s
        · exact estep_refl cfg tr s
      · intro t htm
        simp at htm
        rcases htm with rfl | rfl <;> rfl
  · exact estep_plain _ _

theorem estep_writeExternsTypeMember {cfg : Options} {tr : Translator}
    (typeName : String) (ns : List String) (s : AnnState) (m : MemberE) :
    EStepX cfg tr s (writeExternsTypeMember cfg tr typeName ns s m) := by
  unfold writeExternsTypeMember
  cases m with
  | propertySig pname pty =>
    exact estep_trans (estep_emitJSDocType pty none s) (estep_plain _ _)
  | methodSig mname fn =>
    exact estep_trans (estep_emitFunctionType fn [] (by simp) s) (estep_plain _ _)
  | ctorMember fn => exact estep_refl cfg tr s
  | otherMember kindName mname => exact estep_plain _ _

theorem estep_writeExternsType {cfg : Options} {tr : Translator} (isClass : Bool)
    (name : String) (members : List MemberE) (ns : List String) (s : AnnState) :
    EStepX cfg tr s (writeExternsType cfg tr isClass name members ns s) := by
  unfold writeExternsType
  dsimp only
  refine estep_trans (estep_addNamespace cfg tr (dotJoin (ns ++ [name])) s) ?_
  split
  · exact estep_refl cfg tr _
  · refine estep_trans (estep_addNamespace cfg tr (dotJoin (ns ++ [name])) _) ?_
    refine estep_trans (estep_writeExternsTypeHeader isClass members _) ?_
    refine estep_trans (estep_writeExternsFunction name
      (writeExternsTypeHeader cfg tr isClass members
        (addNamespace (dotJoin (ns ++ [name])) (addNamespace (dotJoin (ns ++ [name])) s))).1
      ns
      (writeExternsTypeHeader cfg tr isClass members
        (addNamespace (dotJoin (ns ++ [name])) (addNamespace (dotJoin (ns ++ [name])) s))).2) ?_
    exact estep_foldl _ _ (fun s' m _ => estep_writeExternsTypeMember _ ns s' m)

/-- The namespace-container skeleton step preserves the contract: a fresh
path gains its (single) skeleton and is recorded; a recorded path is
skipped. -/
theorem estep_moduleSkeletonStep {cfg : Options} {tr : Translator} (nsName : String)
    (nsLen : Nat) (s : AnnState) :
    EStepX cfg tr s (moduleSkeletonStep nsName nsLen s) := by
  unfold moduleSkeletonStep
  dsimp only
  cases hcont : s.emittedNamespaces.contains nsName with
  | true =>
    simp only [hcont, if_true]
    exact estep_addNamespace cfg tr _ _
  | false =>
    simp only [hcont, Bool.false_eq_true, if_false]
    split
    · exact estep_skeleton_emit _ _ hcont (Or.inr rfl)
    · exact estep_skeleton_emit _ _ hcont (Or.inl rfl)

/-- Lifting an externs-buffer step performed at the redirected sink back to
the caller's sink: the `visitExterns` save/redirect/restore pattern. -/
theorem estepV_of_inner {cfg : Options} {tr : Translator} {s inner : AnnState}
    (h : EStepX cfg tr { s with sink := Sink.externs } inner) :
    EStepV cfg tr s { inner with sink := s.sink } := by
  have hmain : inner.mainOut = s.mainOut := h.2.1 rfl
  refine ⟨⟨rfl, fun _ => hmain, ?_, ?_, ?_⟩, hmain⟩
  · intro n hn
    exact h.2.2.1 n hn
  · intro hs
    exact h.2.2.2.1 hs
  · intro ht
    exact h.2.2.2.2 ht

mutual
/-- Master contract of `visitExterns`: the sink is restored, the main
buffer is untouched, the namespace set only grows, and the skeleton and
type-rendering invariants of the externs buffer are preserved. -/
theorem visitExterns_estep (cfg : Options) (tr : Translator) (node : ENode) :
    ∀ (ns : List String) (s : AnnState),
      EStepV cfg tr s (visitExterns cfg tr node ns s) := by
  intro ns s
  cases node with
  | moduleDecl name body =>
    cases name with
    | ident n =>
      unfold visitExterns
      exact estepV_of_inner (estep_trans
        (estep_moduleSkeletonStep (dotJoin (ns ++ [n])) (ns ++ [n]).length
          { s with sink := Sink.externs })
        ((visitExterns_estep cfg tr body (ns ++ [n]) _).1))
    | strLit lit =>
      unfold visitExterns
      exact estepV_of_inner (estep_refl cfg tr _)
    | otherKind =>
      unfold visitExterns
      exact estepV_of_inner (estep_recordError cfg tr _ _)
  | moduleBlock stmts =>
    unfold visitExterns
    exact estepV_of_inner ((visitExternsList_estep cfg tr stmts ns _).1)
  | classDecl name members =>
    unfold visitExterns
    exact estepV_of_inner (estep_writeExternsType true name members ns _)
  | interfaceDecl name members =>
    unfold visitExterns
    exact estepV_of_inner (estep_writeExternsType false name members ns _)
  | functionDecl name fn =>
    unfold visitExterns
    exact estepV_of_inner (estep_trans (estep_emitFunctionType fn [] (by simp) _)
      (estep_writeExternsFunction name (fnParamsText fn) ns _))
  | variableStatement decls =>
    unfold visitExterns
    exact estepV_of_inner (estep_foldl decls _
      (fun s' d _ => estep_writeExternsVariable d ns s'))
  | enumDecl decl =>
    unfold visitExterns
    exact estepV_of_inner (estep_writeExternsEnum decl ns _)
  | otherNode kindName =>
    unfold visitExterns
    exact estepV_of_inner (estep_plain _ _)
/-- The statement-list form of the master contract. -/
theorem visitExternsList_estep (cfg : Options) (tr : Translator) (l : ENodeList) :
    ∀ (ns : List String) (s : AnnState),
      EStepV cfg tr s (visitExternsList cfg tr l ns s) := by
  intro ns s
  cases l with
  | nil =>
    unfold visitExternsList
    exact ⟨estep_refl cfg tr s, rfl⟩
  | cons hd tl =>
    unfold visitExternsList
    have h1 := visitExterns_estep cfg tr hd ns s
    have h2 := visitExternsList_estep cfg tr tl ns (visitExterns cfg tr hd ns s)
    exact ⟨estep_trans h1.1 h2.1, h2.2.trans h1.2⟩
end

/-! ## Claim theorems C7, C3, C2 -/

/-- C7: entering an ambient subtree swaps the sink to the externs buffer
and every exit restores the caller's sink, the main buffer is never
touched by the externs walk, the ambient branch then copies the subtree
verbatim to the restored sink — and the restoration also happens on runs
that record an error, as on a variable declaration with an unsupported
binding-name kind. -/
theorem c7_sink_restored :
    (∀ (cfg : Options) (tr : Translator) (node : ENode) (ns : List String) (s : AnnState),
      (visitExterns cfg tr node ns s).sink = s.sink ∧
      (visitExterns cfg tr node ns s).mainOut = s.mainOut)
    ∧ (∀ (cfg : Options) (tr : Translator) (node : ENode) (text : String) (s : AnnState),
        (ambientBranch cfg tr node text s).sink = s.sink ∧
        (ambientBranch cfg tr node text s).mainOut =
          (if s.sink = .main then s.mainOut ++ [.verbatim text] else s.mainOut))
    ∧ (visitExterns {} (fun _ _ => "T")
        (.variableStatement [{ name := .otherKind }]) [] initState).diags =
        ["externs for variable"]
    ∧ (visitExterns {} (fun _ _ => "T")
        (.variableStatement [{ name := .otherKind }]) [] initState).sink = initState.sink := by
  have hmaster := visitExterns_estep
  refine ⟨fun cfg tr node ns s => ⟨(hmaster cfg tr node ns s).1.1,
    (hmaster cfg tr node ns s).2⟩, ?_, ?_, ?_⟩
  · intro cfg tr node text s
    unfold ambientBranch
    have hsk := (hmaster cfg tr node [] s).1.1
    have hm := (hmaster cfg tr node [] s).2
    cases hs : s.sink with
    | main =>
      rw [emitC_main _ _ (hsk.trans hs)]
      exact ⟨hsk.trans hs, by simp [hm]⟩
    | externs =>
      rw [emitC_externs _ _ (hsk.trans hs)]
      exact ⟨hsk.trans hs, by simp [hm]⟩
  · rfl
  · rfl

/-- C3 counterexample: processing the ambient `namespace N \x7b enum E \x7d`
twice in one run deduplicates the namespace skeleton for `N` through
`emittedNamespaces`, but emits the empty-container skeleton of the enum
path `N.E` twice — the set is neither consulted nor updated by
`writeExternsEnum`, contradicting the claim that it is consulted before
every skeleton emission, including those for ambient enums. -/
theorem c3_counterexample :
    enumSkeletonCount
      (visitExterns {} (fun _ _ => "T")
        (.moduleDecl (.ident "N") (.moduleBlock (.cons (.enumDecl { name := "E" }) .nil))) []
        (visitExterns {} (fun _ _ => "T")
          (.moduleDecl (.ident "N") (.moduleBlock (.cons (.enumDecl { name := "E" }) .nil))) []
          initState)).externsOut "N.E" = 2
    ∧ moduleSkeletonCount
      (visitExterns {} (fun _ _ => "T")
        (.moduleDecl (.ident "N") (.moduleBlock (.cons (.enumDecl { name := "E" }) .nil))) []
        (visitExterns {} (fun _ _ => "T")
          (.moduleDecl (.ident "N") (.moduleBlock (.cons (.enumDecl { name := "E" }) .nil))) []
          initState)).externsOut "N" = 1 := by
  constructor
  · rfl
  · rfl

/-- C3 (amended): the already-emitted-namespace set is consulted before the
namespace-container (module declaration) skeleton emission and updated
right after, so any dotted path receives at most one namespace skeleton
per run; ambient-enum container skeletons, however, bypass the set
entirely (and class/interface emission updates the set without consulting
it), so re-processing the same ambient enum emits its empty-container
skeleton again. -/
theorem c3_skeleton_dedup :
    (∀ (cfg : Options) (tr : Translator) (node : ENode) (ns : List String) (s : AnnState),
      SkelInv s → SkelInv (visitExterns cfg tr node ns s))
    ∧ (∀ (cfg : Options) (tr : Translator) (node : ENode) (ns : List String) (p : String),
        moduleSkeletonCount (visitExterns cfg tr node ns initState).externsOut p ≤ 1) := by
  have hmain : ∀ (cfg : Options) (tr : Translator) (node : ENode) (ns : List String)
      (s : AnnState), SkelInv s → SkelInv (visitExterns cfg tr node ns s) :=
    fun cfg tr node ns s hs => (visitExterns_estep cfg tr node ns s).1.2.2.2.1 hs
  refine ⟨hmain, fun cfg tr node ns p => ?_⟩
  have h0 : SkelInv initState := by
    intro q
    refine ⟨by simp [initState, moduleSkeletonCount], fun h => ?_⟩
    simp [initState, moduleSkeletonCount] at h
  exact (hmain cfg tr node ns initState h0 p).1

/-- Witness for C3's preservation conjunct at a concrete ambient tree. -/
theorem c3_skeleton_dedup_witness :
    SkelInv initState ∧
    SkelInv (visitExterns {} (fun _ _ => "T")
      (.moduleDecl (.ident "N") (.moduleBlock (.cons (.enumDecl { name := "E" }) .nil)))
      [] initState) := by
  have h0 : SkelInv initState := by
    intro q
    refine ⟨by simp [initState, moduleSkeletonCount], fun h => ?_⟩
    simp [initState, moduleSkeletonCount] at h
  exact ⟨h0, c3_skeleton_dedup.1 {} (fun _ _ => "T") _ [] initState h0⟩

/-! ## C2: untyped mode and type renderings -/

/-- Both buffers keep their type renderings under a non-`typeStr` emit. -/
theorem typeStrsOf_emitC_nontype (c : Chunk) (hc : ∀ x, c ≠ .typeStr x) (s : AnnState) :
    typeStrsOf (emitC c s).mainOut = typeStrsOf s.mainOut ∧
    typeStrsOf (emitC c s).externsOut = typeStrsOf s.externsOut := by
  have h0 : typeStrsOf [c] = [] := by
    cases c <;> first | rfl | exact absurd rfl (hc _)
  cases hs : s.sink with
  | main =>
    rw [emitC_main _ _ hs]
    exact ⟨by simp [typeStrsOf_append, h0], rfl⟩
  | externs =>
    rw [emitC_externs _ _ hs]
    exact ⟨rfl, by simp [typeStrsOf_append, h0]⟩

/-- State relation: no type rendering was added to either buffer. -/
theorem nt_trans {s1 s2 s3 : AnnState}
    (h1 : typeStrsOf s2.mainOut = typeStrsOf s1.mainOut ∧
      typeStrsOf s2.externsOut = typeStrsOf s1.externsOut)
    (h2 : typeStrsOf s3.mainOut = typeStrsOf s2.mainOut ∧
      typeStrsOf s3.externsOut = typeStrsOf s2.externsOut) :
    typeStrsOf s3.mainOut = typeStrsOf s1.mainOut ∧
    typeStrsOf s3.externsOut = typeStrsOf s1.externsOut :=
  ⟨h2.1.trans h1.1, h2.2.trans h1.2⟩

/-- The conditional `export ` keyword emission adds no type rendering. -/
theorem nt_ite_export (b : Bool) (s : AnnState) :
    typeStrsOf (if b then emitC (Chunk.str "export ") s else s).mainOut =
      typeStrsOf s.mainOut ∧
    typeStrsOf (if b then emitC (Chunk.str "export ") s else s).externsOut =
      typeStrsOf s.externsOut := by
  cases b
  · exact ⟨rfl, rfl⟩
  · exact typeStrsOf_emitC_nontype _ (fun _ h => Chunk.noConfusion h) s

/-- A fold whose every step adds no type rendering adds none overall. -/
theorem nt_foldl {α : Type} (g : AnnState → α → AnnState) (l : List α) :
    ∀ (s : AnnState),
      (∀ (s' : AnnState) (a : α), a ∈ l →
        typeStrsOf (g s' a).mainOut = typeStrsOf s'.mainOut ∧
        typeStrsOf (g s' a).externsOut = typeStrsOf s'.externsOut) →
      typeStrsOf (l.foldl g s).mainOut = typeStrsOf s.mainOut ∧
      typeStrsOf (l.foldl g s).externsOut = typeStrsOf s.externsOut := by
  induction l with
  | nil =>
    intro s _
    exact ⟨rfl, rfl⟩
  | cons a rest ih =>
    intro s hstep
    rw [List.foldl_cons]
    exact nt_trans (hstep s a (by simp))
      (ih (g s a) (fun s' b hb => hstep s' b (by simp [hb])))

/-- C2 counterexample: with `untyped: true`, the externs output for an
ambient enum still carries the synthesized type rendering `number` (from
the fixed `@const \x7bnumber\x7d` member annotation), which is not the
unknown marker. -/
theorem c2_counterexample :
    typeStrsOf (visitExterns { untyped := true } (fun _ _ => "T")
        (.enumDecl { name := "E", members := [{ name := "M" }] }) [] initState).externsOut =
      ["number"]
    ∧ ("number" : String) ≠ "?" := by
  constructor
  · rfl
  · decide

/-- C2 (amended): with `untyped: true` every rendering produced by the
type-conversion routine is exactly `?`, and every type rendering the
externs walk synthesizes is either `?` or the fixed `number` of the
ambient-enum member annotation (which is emitted regardless of the
option); the walk never writes to the annotated-file buffer, and the
annotated-file side's enum/interface/type-alias emitters synthesize no
type renderings at all in untyped mode. -/
theorem c2_untyped_type_renderings :
    (∀ (tr : Translator) (ty : Ty) (d : Bool),
      typeToClosure { untyped := true } tr ty d = "?")
    ∧ (∀ (tr : Translator) (x : String),
        TypeStrOK { untyped := true } tr x ↔ (x = "number" ∨ x = "?"))
    ∧ (∀ (cfg : Options) (tr : Translator) (node : ENode) (ns : List String) (s : AnnState),
        TypeStrsOK cfg tr s.externsOut →
        TypeStrsOK cfg tr (visitExterns cfg tr node ns s).externsOut ∧
        (visitExterns cfg tr node ns s).mainOut = s.mainOut)
    ∧ (∀ (e : EnumDeclE) (s : AnnState),
        typeStrsOf (maybeProcessEnum { untyped := true } e s).2.mainOut =
          typeStrsOf s.mainOut ∧
        typeStrsOf (maybeProcessEnum { untyped := true } e s).2.externsOut =
          typeStrsOf s.externsOut)
    ∧ (∀ (tr : Translator) (iface : InterfaceE) (s : AnnState),
        emitInterface { untyped := true } tr iface s = s)
    ∧ (∀ (tr : Translator) (name : String) (ty : Ty) (s : AnnState),
        visitTypeAlias { untyped := true } tr name ty s = s) := by
  refine ⟨fun tr ty d => rfl, ?_, ?_, ?_, ?_, ?_⟩
  · intro tr x
    constructor
    · intro h
      rcases h with h | ⟨ty, d, h⟩
      · exact Or.inl h
      · exact Or.inr h
    · intro h
      rcases h with h | h
      · exact Or.inl h
      · exact Or.inr ⟨0, false, h⟩
  · intro cfg tr node ns s ht
    exact ⟨(visitExterns_estep cfg tr node ns s).1.2.2.2.2 ht,
      (visitExterns_estep cfg tr node ns s).2⟩
  · intro e s
    unfold maybeProcessEnum
    split
    · exact ⟨rfl, rfl⟩
    · dsimp only
      exact nt_trans (typeStrsOf_emitC_nontype (.str "\n") (fun _ h => Chunk.noConfusion h) s)
        (nt_trans (nt_ite_export e.isExport _)
          (nt_trans (typeStrsOf_emitC_nontype (.enumTypeAlias e.name)
              (fun _ h => Chunk.noConfusion h) _)
            (nt_trans (nt_ite_export e.isExport _)
              (nt_trans (typeStrsOf_emitC_nontype (.enumLet e.name)
                  (fun _ h => Chunk.noConfusion h) _)
                (nt_trans
                  (nt_foldl _ _ _ (fun s' m _ => by
                    obtain ⟨mn, mv⟩ := m
                    cases mv with
                    | num v =>
                      exact typeStrsOf_emitC_nontype (.enumAssignNum e.name mn v)
                        (fun _ h => Chunk.noConfusion h) s'
                    | expr t =>
                      exact typeStrsOf_emitC_nontype (.enumAssignExpr e.name mn t)
                        (fun _ h => Chunk.noConfusion h) s'))
                  (nt_foldl _ _ _ (fun s' m _ =>
                    typeStrsOf_emitC_nontype (.enumReverse e.name m.1)
                      (fun _ h => Chunk.noConfusion h) s')))))))
  · intro tr iface s
    simp [emitInterface]
  · intro tr name ty s
    simp [visitTypeAlias]

/-- Witness for C2's externs-walk conjunct at a concrete ambient enum. -/
theorem c2_untyped_type_renderings_witness :
    TypeStrsOK { untyped := true } (fun _ _ => "T") initState.externsOut ∧
    (TypeStrsOK { untyped := true } (fun _ _ => "T")
        (visitExterns { untyped := true } (fun _ _ => "T")
          (.enumDecl { name := "E", members := [{ name := "M" }] }) [] initState).externsOut ∧
      (visitExterns { untyped := true } (fun _ _ => "T")
        (.enumDecl { name := "E", members := [{ name := "M" }] }) [] initState).mainOut =
        initState.mainOut) := by
  have h0 : TypeStrsOK { untyped := true } (fun _ _ => "T") initState.externsOut := by
    intro x hx
    simp [initState, typeStrsOf] at hx
  exact ⟨h0, c2_untyped_type_renderings.2.2.1 { untyped := true } (fun _ _ => "T")
    (.enumDecl { name := "E", members := [{ name := "M" }] }) [] initState h0⟩

/-! ## C8: only the last leading comment is parsed -/

/-- C8: when a declaration has several leading comments, `getJSDoc` parses
only the last one — the result (and any recorded fault) is independent of
the earlier comments, so tags in earlier comments are never merged and
never cause a malformed-tag fault.  Concretely, a first comment holding a
hand-written `@type` tag is ignored without a fault when a plain comment
follows it. -/
theorem c8_last_comment_only :
    (∀ (cs1 cs2 : List String) (c : String) (s : AnnState),
      getJSDoc (cs1 ++ [c]) s = getJSDoc (cs2 ++ [c]) s)
    ∧ getJSDoc ["/** @type \x7bT\x7d */", "/** doc */"] initState =
        (some ⟨[{ text := some "doc" }]⟩, initState) := by
  constructor
  · intro cs1 cs2 c s
    unfold getJSDoc
    rw [List.getLast?_concat, List.getLast?_concat]
  · rfl

/-! ## C6: the JSDoc parser's fault conditions -/

/-- The line loop faults as soon as any remaining line is an `@type` tag
line or a `@param`/`@return` tag line with an inline brace type. -/
theorem processLines_error :
    ∀ (lines : List String) (tags : List JSDocTag),
      lines.any offendingLine = true →
      ∃ e, processLines lines tags = .error e := by
  intro lines
  induction lines with
  | nil =>
    intro tags h
    simp at h
  | cons line rest ih =>
    intro tags h
    rw [List.any_cons] at h
    cases hml : matchTagLine line with
    | none =>
      have ho : offendingLine line = false := by
        simp [offendingLine, hml]
      have hrest : rest.any offendingLine = true := by
        simpa [ho] using h
      simp only [processLines, hml]
      split
      · exact ih _ hrest
      · exact ih _ hrest
    | some tt =>
      obtain ⟨tn, text⟩ := tt
      cases ht : (tn == "type") with
      | true =>
        refine ⟨"@type annotations are not allowed", ?_⟩
        simp only [processLines, hml]
        simp [ht]
      | false =>
        cases hb : ((tn == "param" || tn == "return") && strStartsWith text "\x7b") with
        | true =>
          refine ⟨"type annotations (using \x7b...\x7d) are not allowed", ?_⟩
          simp only [processLines, hml]
          simp [ht, hb]
        | false =>
          have ho : offendingLine line = false := by
            simp [offendingLine, hml, ht, hb]
          have hrest : rest.any offendingLine = true := by
            simpa [ho] using h
          simp only [processLines, hml, ht, hb, Bool.false_eq_true, if_false]
          exact ih _ hrest

/-- C6: the parsing routine yields a tag list, the definite
not-a-documentation-comment result, or a fault; and it faults on every
JSDoc-shaped comment containing a hand-written `@type` tag line or a
`@param`/`@return` tag line carrying an inline type in braces. -/
theorem c6_jsdoc_parse_faults :
    ∀ comment : String,
      ((∃ c, getJSDocAnnot comment = .ok (some c)) ∨
        getJSDocAnnot comment = .ok none ∨
        (∃ e, getJSDocAnnot comment = .error e))
      ∧ (hasDisallowedTag comment = true → ∃ e, getJSDocAnnot comment = .error e) := by
  intro comment
  constructor
  · cases hv : getJSDocAnnot comment with
    | error e => exact Or.inr (Or.inr ⟨e, rfl⟩)
    | ok r =>
      cases r with
      | none => exact Or.inr (Or.inl rfl)
      | some c => exact Or.inl ⟨c, rfl⟩
  · intro hd
    unfold hasDisallowedTag processedJSDocLines at hd
    cases hm : jsdocMatch comment with
    | none =>
      rw [hm] at hd
      simp at hd
    | some inner =>
      rw [hm] at hd
      simp only [Option.map_some'] at hd
      obtain ⟨e, he⟩ := processLines_error _ [] hd
      refine ⟨e, ?_⟩
      unfold getJSDocAnnot
      rw [hm]
      simp only [he]

/-- Witness for C6 at a concrete `@type`-carrying comment. -/
theorem c6_jsdoc_parse_faults_witness :
    hasDisallowedTag "/** @type \x7bT\x7d */" = true
    ∧ ∃ e, getJSDocAnnot "/** @type \x7bT\x7d */" = .error e :=
  ⟨rfl, (c6_jsdoc_parse_faults "/** @type \x7bT\x7d */").2 rfl⟩

end Tsickle
